import Mathlib

/-!
Shallow embedding of the cross-entity consistency engine of
`backend/services/challenges/server.py` (task completion / undo, replan,
retask, plan deletion, medal grading and the capped leaderboard cache).

The Mongo collections `tasks`, `plans`, `users`, `medals` and the
`leaderboard` singleton are modelled as Lean lists of records; the Mongo
primitives `find_one`, `update_one`, `find_one_and_update` (with
`ReturnDocument.AFTER`) and `update_many_filtered` are modelled as
first-match lookup, first-match in-place update and filtered map over those
lists.  Python ints are modelled as `Int`, nullable fields as `Option`,
and the float completion quotient of `_medal_grade` as an exact rational
(the float and rational comparisons against the literals 0.33 / 0.66 / 1.0
agree for all realistic task counts).
-/

namespace SkillUp

/-- Difficulty weight map `CHALLENGES_DIFFICULTY_MAP`, read with default 1.
Modelled from the spec: the configuration file `utils/env.json` that holds the
map is not among the sources; the spec fixes `easy/medium/hard -> 1/3/5`. -/
def CHALLENGES_DIFFICULTY_MAP (key : String) : Int :=
  if key = "easy" then 1
  else if key = "medium" then 3
  else if key = "hard" then 5
  else 1

/-- Leaderboard cap `CHALLENGES_MIN_HEAP_K_LEADER`.
Modelled from the spec: `utils/env.json` is not among the sources; the spec
fixes K = 10. -/
def CHALLENGES_MIN_HEAP_K_LEADER : Nat := 10

/-- Python `_medal_grade(completed, total)`: the medal grade (G/S/B/"None")
from the completion quotient.  The Python float division and float literal
comparisons are modelled with exact rational arithmetic. -/
def _medal_grade (completed total : Int) : String :=
  if total ≤ 0 ∨ completed ≤ 0 then "None"
  else
    let rt : ℚ := (completed : ℚ) / (total : ℚ)
    if rt ≥ 1 then "G"
    else if rt ≥ 66 / 100 then "S"
    else if rt ≥ 33 / 100 then "B"
    else "None"

/-- One document of the `tasks` collection (fields used by the engine;
the optional free-text `report` field is never read by it and is omitted). -/
structure TaskRec where
  task_id : Int
  plan_id : Int
  user_id : String
  title : String
  description : String
  difficulty : Int
  score : Int
  deadline_date : String
  completed_at : Option String
  deleted : Bool
deriving Repr, DecidableEq

/-- One document of the `plans` collection (fields read or written by the
engine; the display-only fields `difficulty`, `created_at`,
`expected_complete` and the embedded `tasks` history array are omitted).
Entries of `prompts` and `responses` may be Python `None`, hence `Option`. -/
structure PlanRec where
  plan_id : Int
  user_id : String
  n_tasks : Int
  n_tasks_done : Int
  n_replans : Int
  deleted : Bool
  completed_at : Option String
  next_task_id : Int
  prompts : List (Option String)
  responses : List (Option String)
deriving Repr, DecidableEq

/-- One document of the `users` collection (fields used by the engine). -/
structure UserRec where
  user_id : String
  username : String
  score : Int
  n_tasks_done : Int
  n_plans : Int
  active_plans : List Int
deriving Repr, DecidableEq

/-- One entry of the `medal` array of a medal document. -/
structure MedalEntry where
  grade : String
  task_id : Int
deriving Repr, DecidableEq

/-- One document of the `medals` collection, keyed by `(user_id, timestamp)`
where `timestamp` is the day string. -/
structure MedalRec where
  user_id : String
  timestamp : String
  medal : List MedalEntry
deriving Repr, DecidableEq

/-- One entry of the `items` array of the leaderboard singleton. -/
structure LBEntry where
  username : String
  score : Int
deriving Repr, DecidableEq

/-- The whole database.  `lb` is the `items` array of the `leaderboard`
document with `_id = "topK"`; `none` models the document being absent, in
which case the non-upsert leaderboard updates match nothing and do nothing. -/
structure DB where
  tasks : List TaskRec
  plans : List PlanRec
  users : List UserRec
  medals : List MedalRec
  lb : Option (List LBEntry)
deriving Repr, DecidableEq

/-- Mongo `update_one`: update the first document matching the filter. -/
def updateFirst (p : α → Bool) (f : α → α) : List α → List α
  | [] => []
  | x :: xs => if p x then f x :: xs else x :: updateFirst p f xs

/-- Mongo `find_one_and_update` with `ReturnDocument.AFTER`: returns the
updated first matching document together with the updated collection. -/
def findOneAndUpdateA (p : α → Bool) (f : α → α) (l : List α) :
    Option α × List α :=
  match l.find? p with
  | none => (none, l)
  | some x => (some (f x), updateFirst p f l)

/-- Order used by the Mongo array sort `{"score": -1, "username": 1}`:
score descending, username ascending as tie-break. -/
def lbRel (a b : LBEntry) : Prop :=
  b.score < a.score ∨ (a.score = b.score ∧ a.username ≤ b.username)

instance : DecidableRel lbRel := fun a b => by
  unfold lbRel; infer_instance

instance : IsTotal LBEntry lbRel := by
  constructor
  intro a b
  rcases lt_trichotomy a.score b.score with h | h | h
  · exact Or.inr (Or.inl h)
  · rcases le_total a.username b.username with hu | hu
    · exact Or.inl (Or.inr ⟨h, hu⟩)
    · exact Or.inr (Or.inr ⟨h.symm, hu⟩)
  · exact Or.inl (Or.inl h)

instance : IsTrans LBEntry lbRel := by
  constructor
  intro a b c hab hbc
  rcases hab with h1 | ⟨h1, h1u⟩ <;> rcases hbc with h2 | ⟨h2, h2u⟩
  · exact Or.inl (h2.trans h1)
  · exact Or.inl (h2 ▸ h1)
  · exact Or.inl (h1 ▸ h2)
  · exact Or.inr ⟨h1.trans h2, h1u.trans h2u⟩

/-- The two-write leaderboard maintenance shared verbatim by `task_done` and
`task_undo`: `$pull` any item of this username, then `$push` the fresh
`{username, score}` with `$sort {score:-1, username:1}` and
`$slice CHALLENGES_MIN_HEAP_K_LEADER`.  When the singleton document is
absent (`none`) both non-upsert updates match nothing. -/
def lb_update (username : String) (score : Int) :
    Option (List LBEntry) → Option (List LBEntry)
  | none => none
  | some items =>
    let pulled := items.filter (fun e => e.username != username)
    some ((List.insertionSort lbRel (pulled ++ [⟨username, score⟩])).take
      CHALLENGES_MIN_HEAP_K_LEADER)

/-- Key part of the task filters: `task_id`, `user_id`, `plan_id`. -/
def taskKeyP (uid : String) (pid tid : Int) (t : TaskRec) : Bool :=
  t.task_id == tid && t.user_id == uid && t.plan_id == pid

/-- Mongo `$addToSet`: append the value if it is not yet in the array. -/
def addToSet (l : List Int) (x : Int) : List Int :=
  if l.contains x then l else l ++ [x]

/-- Key predicate of the `users` collection (`keys_dict={"user_id": ...}`). -/
def userKeyP (uid : String) (u : UserRec) : Bool := u.user_id == uid

/-- Key predicate of the `plans` collection
(`keys_dict={"user_id": ..., "plan_id": ...}`). -/
def planKeyP (uid : String) (pid : Int) (p : PlanRec) : Bool :=
  p.user_id == uid && p.plan_id == pid

/-- The conditional plan update of `task_done` step 2 (one aggregation
pipeline: increment `n_tasks_done`, then stamp `completed_at` only if it is
still null, `n_tasks > 0`, and the incremented counter reached it). -/
def task_done_plan_upd (now : String) (p : PlanRec) : PlanRec :=
  let nd := p.n_tasks_done + 1
  {p with n_tasks_done := nd,
          completed_at :=
            if p.completed_at = none ∧ 0 < p.n_tasks ∧ p.n_tasks ≤ nd
            then some now else p.completed_at}

/-- The user update of `task_done` step 3: `$inc` of `n_tasks_done` and
`score`, and `$pull` of the plan from `active_plans` when the plan just
read back as completed. -/
def task_done_user_upd (pid : Int) (task_score : Int) (plan : PlanRec)
    (u : UserRec) : UserRec :=
  {u with n_tasks_done := u.n_tasks_done + 1,
          score := u.score + task_score,
          active_plans :=
            if plan.completed_at ≠ none
            then u.active_plans.filter (fun x => x != pid)
            else u.active_plans}

/-- The same-day task query of `task_done` step 4: the user's non-deleted
tasks whose `deadline_date` starts with the day string (Mongo
`$regex ^day`). -/
def sameDayTasks (uid day : String) (ts : List TaskRec) : List TaskRec :=
  ts.filter (fun t =>
    t.user_id == uid && !t.deleted && day.isPrefixOf t.deadline_date)

/-- Does the same-day query already contain the toggled task id
(`present` in the Python code)? -/
def sameDayPresent (uid day : String) (tid : Int) (ts : List TaskRec) :
    Bool :=
  (sameDayTasks uid day ts).any (fun t => t.task_id == tid)

/-- Total task count of `task_done` step 4 (the just-completed task is
counted once more when the day query missed it). -/
def doneTotal (uid day : String) (tid : Int) (ts : List TaskRec) : Int :=
  if sameDayPresent uid day tid ts
  then ((sameDayTasks uid day ts).length : Int)
  else ((sameDayTasks uid day ts).length : Int) + 1

/-- Completed task count of `task_done` step 4.  The Python code feeds it
(together with `doneTotal`) to `_medal_grade` and then discards the result:
the medal write below fails (see `task_done_finish`). -/
def doneCompleted (uid day : String) (tid : Int) (ts : List TaskRec) : Int :=
  if sameDayPresent uid day tid ts
  then (((sameDayTasks uid day ts).filter
    (fun t => t.completed_at.isSome)).length : Int)
  else (((sameDayTasks uid day ts).filter
    (fun t => t.completed_at.isSome)).length : Int) + 1

/-- Steps 4–5 of `task_done`: the same-day counts are computed and the
`total == 0` early return (which precedes the leaderboard update) is taken
from them, but the two medal writes never happen: `db.update_one("medals",
…)` raises `KeyError('medals')` inside `check_primary_keys` — `medals` has
no entry in `backend/db/utility.py`'s `table_primary_keys_dict` — and the
surrounding `try/except` swallows the error (the `$push` with `upsert=True`
could not run anyway: `backend/db/database.py`'s `update_one` accepts no
`upsert` argument).  So the `medals` collection is untouched and only the
pull/push/trim leaderboard sequence runs. -/
def task_done_finish (dayOf : String → String) (uid : String) (tid : Int)
    (task : TaskRec) (user : UserRec) (db3 : DB) : Except Nat Int × DB :=
  if doneTotal uid (dayOf task.deadline_date) tid db3.tasks = 0
  then (.ok user.score, db3)
  else
    (.ok user.score, {db3 with lb := lb_update user.username user.score db3.lb})

/-- Step 3 of `task_done`: update the user document, check the projection
(`score` non-null, `username` non-falsy), then go on to the (failing) medal
step and the leaderboard. -/
def task_done_user (dayOf : String → String) (uid : String) (pid tid : Int)
    (task : TaskRec) (plan : PlanRec) (db2 : DB) : Except Nat Int × DB :=
  match findOneAndUpdateA (userKeyP uid)
      (task_done_user_upd pid task.score plan) db2.users with
  | (none, _) => (.error 406, db2)
  | (some user, users1) =>
    if user.username = "" then (.error 407, {db2 with users := users1})
    else task_done_finish dayOf uid tid task user {db2 with users := users1}

/-- Step 2 of `task_done`: conditional plan update, then the user step. -/
def task_done_plan (dayOf : String → String) (uid : String) (pid tid : Int)
    (now : String) (task : TaskRec) (db1 : DB) : Except Nat Int × DB :=
  match findOneAndUpdateA (planKeyP uid pid)
      (task_done_plan_upd now) db1.plans with
  | (none, _) => (.error 405, db1)
  | (some plan, plans1) =>
    task_done_user dayOf uid pid tid task plan {db1 with plans := plans1}

/-- Python `task_done` (route `/task_done`), after session/identifier
validation.  `dayOf` models `_day_from_iso` (ISO parse to the day string,
falling back to today); `now` models `timing.now_iso()`.  The returned
`Except` carries the HTTP error status or the updated user score.  The
numbered steps of the Python function are the `task_done_*` helpers; the
medal writes of step 4 fail and are swallowed (see `task_done_finish`). -/
def task_done (dayOf : String → String) (uid : String) (pid tid : Int)
    (now : String) (db : DB) : Except Nat Int × DB :=
  match findOneAndUpdateA
      (fun t => taskKeyP uid pid tid t && !t.deleted && t.completed_at.isNone)
      (fun t => {t with completed_at := some now}) db.tasks with
  | (none, _) => (.error 404, db)
  | (some task, tasks1) =>
    task_done_plan dayOf uid pid tid now task {db with tasks := tasks1}

/-- The plan update of `task_undo` step 2: decrement `n_tasks_done`
(floored at 0) and clear `completed_at`. -/
def task_undo_plan_upd (p : PlanRec) : PlanRec :=
  {p with n_tasks_done := max 0 (p.n_tasks_done - 1), completed_at := none}

/-- The user update of `task_undo` step 3: `$inc` by -1 / -score and
`$addToSet` the plan back into `active_plans`. -/
def task_undo_user_upd (pid : Int) (task_doc_score : Int) (u : UserRec) :
    UserRec :=
  {u with n_tasks_done := u.n_tasks_done - 1,
          score := u.score - task_doc_score,
          active_plans := addToSet u.active_plans pid}

/-- Steps 4–5 of `task_undo`: the attempted removal of this task's medal
entry raises `KeyError('medals')` inside `check_primary_keys` and is
swallowed by its `try/except` (the `medals` collection is untouched), then
the pull/push/trim leaderboard sequence runs. -/
def task_undo_finish ( _dayOf : String → String) (_uid : String) (_tid : Int)
    (_task_doc : TaskRec) (user : UserRec) (db3 : DB) : Except Nat Int × DB :=
  (.ok user.score, {db3 with lb := lb_update user.username user.score db3.lb})

/-- Step 3 of `task_undo`: update the user document, check the projection,
then go on to the (failing) medal removal and the leaderboard. -/
def task_undo_user (dayOf : String → String) (uid : String) (pid tid : Int)
    (task_doc : TaskRec) (db2 : DB) : Except Nat Int × DB :=
  match findOneAndUpdateA (userKeyP uid)
      (task_undo_user_upd pid task_doc.score) db2.users with
  | (none, _) => (.error 406, db2)
  | (some user, users1) =>
    if user.username = "" then (.error 407, {db2 with users := users1})
    else task_undo_finish dayOf uid tid task_doc user {db2 with users := users1}

/-- Step 2 of `task_undo`: plan counters/flag update, then the user step. -/
def task_undo_plan (dayOf : String → String) (uid : String) (pid tid : Int)
    (task_doc : TaskRec) (db1 : DB) : Except Nat Int × DB :=
  match findOneAndUpdateA (planKeyP uid pid)
      task_undo_plan_upd db1.plans with
  | (none, _) => (.error 405, db1)
  | (some _plan, plans1) =>
    task_undo_user dayOf uid pid tid task_doc {db1 with plans := plans1}

/-- Python `task_undo` (route `/task_undo`), after session/identifier
validation: require an existing, non-deleted, currently completed task,
clear its `completed_at`, then roll the plan, user and leaderboard state
back (the medal removal fails and is swallowed, see `task_undo_finish`).
The numbered steps are the `task_undo_*` helpers. -/
def task_undo (dayOf : String → String) (uid : String) (pid tid : Int)
    (db : DB) : Except Nat Int × DB :=
  match db.tasks.find? (fun t => taskKeyP uid pid tid t && !t.deleted) with
  | none => (.error 404, db)
  | some task_doc =>
    if task_doc.completed_at.isNone then (.error 404, db)
    else
      match findOneAndUpdateA
          (fun t => taskKeyP uid pid tid t && !t.deleted &&
            t.completed_at.isSome)
          (fun t => {t with completed_at := none}) db.tasks with
      | (none, _) => (.error 404, db)
      | (some _task, tasks1) =>
        task_undo_plan dayOf uid pid tid task_doc {db with tasks := tasks1}

/-- Python `delete_plan` (route `/plan/delete`), after session validation.
Its very first statement, `db.update_one("plans", …)`, raises
`KeyError('plans')` inside `check_primary_keys` — `plans` has no entry in
`backend/db/utility.py`'s `table_primary_keys_dict` — and nothing catches
it, so every call fails with HTTP 500 before any read or write: the plan is
never marked deleted, no task is soft-deleted, `active_plans` is never
pulled.  (The later steps could not run either: `db.update_many_filtered`
does not exist in `backend/db/database.py`.) -/
def delete_plan ( _uid : String) (_pid : Int) (db : DB) :
    Except Nat Unit × DB :=
  (.error 500, db)

/-- Python `str(x)` on a nullable string: `None` prints as `"None"`. -/
def pyStr : Option String → String
  | none => "None"
  | some s => s

/-- Raw task draft as produced by the generation oracle: `title`,
`description`, `difficulty` (strings, pre-normalization). -/
structure Draft where
  title : String
  description : String
  difficulty : String
deriving Repr, DecidableEq

/-- Python `_normalize_tasks_or_throw`: drop drafts with an unparsable ISO
date key or an empty (after strip) title/description; `none` models the two
`502` raises (empty payload, or nothing survives).  `validDate` models
`timing.from_iso_to_datetime` succeeding on the date key; the raw payload is
a date-keyed dict, modelled as an association list in insertion order. -/
def _normalize_tasks_or_throw (validDate : String → Bool)
    (raw : List (String × Draft)) : Option (List (String × Draft)) :=
  if raw.isEmpty then none
  else
    let normalized := raw.filterMap (fun dt =>
      if !validDate dt.1 then none
      else
        let title := dt.2.title.trim
        let descr := dt.2.description.trim
        if title = "" || descr = "" then none
        else some (dt.1, {dt.2 with title := title, description := descr}))
    if normalized.isEmpty then none else some normalized

/-- Python `_insert_plan_for_user`: normalize the drafts (502 on a bad
payload), read the user's `n_plans` (503 when the user is missing), set the
user's `n_plans` to the new plan id and `$addToSet` it into `active_plans`
(this `update_one` passes the key check: its `keys_dict` holds `user_id`) —
and then crash: `db.insert("plans", …)` raises `KeyError('plans')` inside
`check_primary_keys` (`plans` has no entry in `table_primary_keys_dict`),
which nothing catches (HTTP 500).  No plan document and no task documents
are ever created; the only lasting effect is the user update. -/
def _insert_plan_for_user (validDate : String → Bool) (uid : String)
    (raw : List (String × Draft)) ( _prompt_text : Option String)
    (_response_payload : Option String) (db : DB) : Except Nat Int × DB :=
  match _normalize_tasks_or_throw validDate raw with
  | none => (.error 502, db)
  | some _normalized =>
    match db.users.find? (userKeyP uid) with
    | none => (.error 503, db)
    | some u =>
      let plan_id := u.n_plans + 1
      let users1 := updateFirst (userKeyP uid)
        (fun v => {v with n_plans := plan_id,
                          active_plans := addToSet v.active_plans plan_id})
        db.users
      (.error 500, { db with users := users1 })

/-- The HTTP outcome of `replan`: the pre-crash validations in order (402
when the plan is missing or deleted, 502 when the oracle call fails or the
payload normalizes to nothing), then 500 — step 4, the soft-delete of the
old tasks, calls `db.update_many_filtered`, which `backend/db/database.py`
does not define, so the success path dies with an uncaught `AttributeError`
before its first write. -/
def replanStatus (validDate : String → Bool) (uid : String) (pid : Int)
    (llm : Option (List (String × Draft) × Option String × Option String))
    (db : DB) : Except Nat Int :=
  match db.plans.find?
      (fun p => planKeyP uid pid p && !p.deleted) with
  | none => .error 402
  | some _plan =>
    match llm with
    | none => .error 502
    | some (raw, _prompt2, _resp2) =>
      if raw.isEmpty then .error 502
      else
        match _normalize_tasks_or_throw validDate raw with
        | none => .error 502
        | some _normalized => .error 500

/-- Python `replan` (route `/prompt/replan`), after session validation.
`llm` models the generation oracle's reply: `none` for a failed call, or
`some (tasks payload, result prompt, result response)`.  No branch reaches
a write (see `replanStatus`), so the database is returned unchanged on
every path. -/
def replan (validDate : String → Bool) (uid : String) (pid : Int)
    (llm : Option (List (String × Draft) × Option String × Option String))
    (db : DB) : Except Nat Int × DB :=
  (replanStatus validDate uid pid llm db, db)

/-- Reply of the oracle's single-task variant used by `retask`. -/
structure RetaskResult where
  challenge_title : String
  challenge_description : String
  difficulty : String
  deadline_date : String
deriving Repr, DecidableEq

/-- The note `retask` appends to the last stored prompt. -/
def retaskNote (lastPrompt : Option String) (tid : Int) (reason : String) :
    String :=
  pyStr lastPrompt ++ "\nTask " ++ toString tid ++
    " modified with respect to this information: " ++ reason ++ "."

/-- The `$set` of `retask` step 4: overwrite the task's content fields in
place (`title/description/difficulty/score/deadline_date`) and reset
`completed_at` to null; the key fields are untouched. -/
def retaskPatch (result : RetaskResult) (t : TaskRec) : TaskRec :=
  {t with title := result.challenge_title,
          description := result.challenge_description,
          difficulty := CHALLENGES_DIFFICULTY_MAP result.difficulty.toLower,
          score := CHALLENGES_DIFFICULTY_MAP result.difficulty.toLower * 10,
          deadline_date := result.deadline_date,
          completed_at := none}

/-- Python `retask` (route `/retask`), after session/identifier validation.
`llm` models `get_llm_retask_response`: `none` for a failed call (501).  An
empty prompts history makes the Python code fail before the oracle call
(`prompts[-1]` raises, an unhandled 500).  On success the target task is
overwritten in place (same `task_id`, `completed_at` reset to null) and the
modification note is appended to the last element of the plan's `prompts`. -/
def retask (uid : String) (pid tid : Int) (modification_reason : String)
    (llm : Option RetaskResult) (db : DB) : Except Nat String × DB :=
  match db.tasks.find? (fun t => taskKeyP uid pid tid t && !t.deleted) with
  | none => (.error 404, db)
  | some _task =>
    match db.plans.find?
        (fun p => planKeyP uid pid p && !p.deleted) with
    | none => (.error 405, db)
    | some plan =>
      let prompts := plan.prompts
      if prompts.isEmpty then (.error 500, db)
      else
        match llm with
        | none => (.error 501, db)
        | some result =>
          if db.tasks.any (fun t => taskKeyP uid pid tid t) then
            let tasks1 := updateFirst (fun t => taskKeyP uid pid tid t)
              (retaskPatch result) db.tasks
            let db1 : DB := {db with tasks := tasks1}
            let newLast : Option String :=
              some (retaskNote (prompts.getLast?.join) tid modification_reason)
            let prompts1 := prompts.dropLast ++ [newLast]
            match findOneAndUpdateA (planKeyP uid pid)
                (fun p => {p with prompts := prompts1}) db1.plans with
            | (none, _) => (.error 408, db1)
            | (some _p2, plans1) =>
              (.ok (pyStr newLast), {db1 with plans := plans1})
          else (.error 406, db)

/-- One call of the completion engine, for sequences of completions and
undos. -/
inductive Call where
  | done (uid : String) (pid tid : Int) (now : String)
  | undo (uid : String) (pid tid : Int)
deriving Repr, DecidableEq

/-- Apply one `Call` to the database, discarding the HTTP-level result. -/
def applyCall (dayOf : String → String) (c : Call) (db : DB) : DB :=
  match c with
  | .done uid pid tid now => (task_done dayOf uid pid tid now db).2
  | .undo uid pid tid => (task_undo dayOf uid pid tid db).2

/-- Run a sequence of `CompleteTask` / `UndoTask` calls. -/
def runCalls (dayOf : String → String) : List Call → DB → DB
  | [], db => db
  | c :: cs, db => runCalls dayOf cs (applyCall dayOf c db)

/-- First user document with this `user_id`. -/
def findUser? (db : DB) (uid : String) : Option UserRec :=
  db.users.find? (userKeyP uid)

/-- First plan document with this `(user_id, plan_id)`. -/
def findPlan? (db : DB) (uid : String) (pid : Int) : Option PlanRec :=
  db.plans.find? (planKeyP uid pid)

/-- First task document with this `(user_id, plan_id, task_id)`. -/
def findTask? (db : DB) (uid : String) (pid tid : Int) : Option TaskRec :=
  db.tasks.find? (taskKeyP uid pid tid)

/-- Does the task count towards the score of user `uid`: it belongs to the
user, it is not soft-deleted and `completed_at` is set. -/
def counted (uid : String) (t : TaskRec) : Bool :=
  t.user_id == uid && !t.deleted && t.completed_at.isSome

/-- Sum of the scores of the user's completed, non-deleted tasks. -/
def scoreSum (uid : String) (ts : List TaskRec) : Int :=
  ((ts.filter (counted uid)).map (fun t => t.score)).sum

/-- The current (non-deleted) tasks of a plan. -/
def planTasks (uid : String) (pid : Int) (ts : List TaskRec) :
    List TaskRec :=
  ts.filter (fun t => t.user_id == uid && t.plan_id == pid && !t.deleted)

/-- Number of current tasks of a plan. -/
def taskCount (uid : String) (pid : Int) (ts : List TaskRec) : Nat :=
  (planTasks uid pid ts).length

/-- Number of completed current tasks of a plan. -/
def completedCount (uid : String) (pid : Int) (ts : List TaskRec) : Nat :=
  ((planTasks uid pid ts).filter (fun t => t.completed_at.isSome)).length

/-- Number of still-pending current tasks of a plan. -/
def pendingCount (uid : String) (pid : Int) (ts : List TaskRec) : Nat :=
  ((planTasks uid pid ts).filter (fun t => t.completed_at.isNone)).length

/-- The task-id history of one plan: ids of all its task documents, the
soft-deleted ones included. -/
def planTaskIds (uid : String) (pid : Int) (ts : List TaskRec) : List Int :=
  (ts.filter (fun t => t.user_id == uid && t.plan_id == pid)).map
    (fun t => t.task_id)

/-- The consistency of a database state: unique document keys, referential
integrity from tasks to their plan and user, the user-score accounting
invariant, and the per-plan counters/completion invariants of the spec. -/
structure Consistent (db : DB) : Prop where
  users_nodup : (db.users.map (fun u => u.user_id)).Nodup
  tasks_nodup :
    (db.tasks.map (fun t => (t.user_id, t.plan_id, t.task_id))).Nodup
  plans_nodup : (db.plans.map (fun p => (p.user_id, p.plan_id))).Nodup
  task_plan : ∀ t ∈ db.tasks,
    (t.user_id, t.plan_id) ∈ db.plans.map (fun p => (p.user_id, p.plan_id))
  task_user : ∀ t ∈ db.tasks,
    t.user_id ∈ db.users.map (fun u => u.user_id)
  score_inv : ∀ u ∈ db.users, u.score = scoreSum u.user_id db.tasks
  plan_done_count : ∀ p ∈ db.plans,
    p.n_tasks_done = (completedCount p.user_id p.plan_id db.tasks : Int)
  plan_task_count : ∀ p ∈ db.plans,
    p.n_tasks = (taskCount p.user_id p.plan_id db.tasks : Int)
  plan_completed : ∀ p ∈ db.plans, p.completed_at ≠ none →
    pendingCount p.user_id p.plan_id db.tasks = 0

/-- The part of `Consistent` that the completion engine keeps invariant and
that forces the score-accounting equation: unique user ids, referential
integrity, and the score equation itself. -/
def ScoreInv (db : DB) : Prop :=
  (db.users.map (fun u => u.user_id)).Nodup ∧
  (∀ t ∈ db.tasks,
    (t.user_id, t.plan_id) ∈ db.plans.map (fun p => (p.user_id, p.plan_id))) ∧
  (∀ t ∈ db.tasks, t.user_id ∈ db.users.map (fun u => u.user_id)) ∧
  (∀ u ∈ db.users, u.score = scoreSum u.user_id db.tasks)

/-- Day extractor used by the concrete sample databases: their
`deadline_date` values are already plain day strings. -/
def sampleDayOf (s : String) : String := s

/-- A sample task for the concrete witnesses. -/
def mkSampleTask (tid : Int) (score : Int) (day : String) : TaskRec :=
  { task_id := tid, plan_id := 1, user_id := "u1",
    title := "t", description := "d", difficulty := 1, score := score,
    deadline_date := day, completed_at := none, deleted := false }

/-- A sample consistent database: one user, one plan, three pending tasks
due on the same day. -/
def sampleDB : DB :=
  { tasks := [mkSampleTask 0 10 "2025-01-01", mkSampleTask 1 10 "2025-01-01",
              mkSampleTask 2 10 "2025-01-01"],
    plans := [{ plan_id := 1, user_id := "u1", n_tasks := 3,
                n_tasks_done := 0, n_replans := 0, deleted := false,
                completed_at := none, next_task_id := 3,
                prompts := [some "goal"], responses := [some "resp"] }],
    users := [{ user_id := "u1", username := "alice", score := 0,
                n_tasks_done := 0, n_plans := 1, active_plans := [1] }],
    medals := [],
    lb := some [] }

/-- Grade cascade exactly as the spec words it: `G` if the completion
quotient is at least 1.0, `S` if at least 0.66, `B` if at least 0.33,
otherwise no medal.  Stated from the spec sentence for comparison with the
source's `_medal_grade`. -/
def medalGradeSpec (completed total : Int) : String :=
  let rt : ℚ := (completed : ℚ) / (total : ℚ)
  if rt ≥ 1 then "G"
  else if rt ≥ 66 / 100 then "S"
  else if rt ≥ 33 / 100 then "B"
  else "None"

/-- Wellformedness of the leaderboard singleton: at most K items, sorted by
score descending then username ascending, and no duplicate usernames.
Trivially true when the singleton document is absent. -/
def LBGood : Option (List LBEntry) → Prop
  | none => True
  | some items =>
      items.length ≤ CHALLENGES_MIN_HEAP_K_LEADER ∧
      items.Sorted lbRel ∧
      (items.map (fun e => e.username)).Nodup

/-- The plan of the second sample database. -/
def samplePlan2 : PlanRec :=
  { plan_id := 1, user_id := "u1", n_tasks := 2,
    n_tasks_done := 1, n_replans := 0, deleted := false,
    completed_at := none, next_task_id := 2,
    prompts := [some "goal"], responses := [some "resp"] }

/-- The user of the second sample database. -/
def sampleUser2 : UserRec :=
  { user_id := "u1", username := "alice", score := 10,
    n_tasks_done := 1, n_plans := 1, active_plans := [1] }

/-- A second sample consistent database: one plan with one completed and
one pending task, the user's score already counting the completed one. -/
def sampleDB2 : DB :=
  { tasks := [{ mkSampleTask 0 10 "2025-01-01" with
                  completed_at := some "2025-01-01T10:00:00" },
              mkSampleTask 1 30 "2025-01-02"],
    plans := [samplePlan2],
    users := [sampleUser2],
    medals := [],
    lb := some [⟨"alice", 10⟩] }

/-- Run a sequence of `Replan` calls (each with its oracle reply) on one
plan. -/
def runReplans (validDate : String → Bool) (uid : String) (pid : Int) :
    List (Option (List (String × Draft) × Option String × Option String)) →
      DB → DB
  | [], db => db
  | x :: xs, db =>
    runReplans validDate uid pid xs (replan validDate uid pid x db).2

/-- Date validity oracle used by the concrete plan-creation and replan
samples: every date key parses. -/
def allDatesValid (_s : String) : Bool := true

/-- A fresh user with no plans yet, for the plan-creation samples. -/
def sampleUser0 : UserRec :=
  { user_id := "u1", username := "alice", score := 0,
    n_tasks_done := 0, n_plans := 0, active_plans := [] }

/-- An empty database holding only `sampleUser0`. -/
def sampleDB0 : DB :=
  { tasks := [], plans := [], users := [sampleUser0], medals := [],
    lb := some [] }

/-- A sample draft for the plan-creation and replan samples. -/
def sampleDraftA : Draft :=
  { title := "a", description := "b", difficulty := "easy" }

/-- A second sample draft for the replan samples. -/
def sampleDraftC : Draft :=
  { title := "c", description := "d", difficulty := "easy" }

/-- A sample oracle reply for the `retask` witnesses. -/
def sampleRetaskRes : RetaskResult :=
  { challenge_title := "nt", challenge_description := "nd",
    difficulty := "medium", deadline_date := "2025-01-05" }

/-! Helper lemmas about the Mongo primitives. -/

theorem updateFirst_of_find?_none {α : Type _} {p : α → Bool} (f : α → α) :
    ∀ {l : List α}, l.find? p = none → updateFirst p f l = l := by
  intro l
  induction l with
  | nil => intro _; rfl
  | cons a l ih =>
    intro h
    by_cases hpa : p a = true
    · rw [List.find?_cons_of_pos _ hpa] at h; cases h
    · rw [List.find?_cons_of_neg _ hpa] at h
      have hpa' : p a = false := by simpa using hpa
      simp [updateFirst, hpa', ih h]

theorem find?_decomp {α : Type _} {p : α → Bool} (f : α → α) :
    ∀ {l : List α} {x : α}, l.find? p = some x →
      ∃ l1 l2, l = l1 ++ x :: l2 ∧ (∀ y ∈ l1, p y = false) ∧
        updateFirst p f l = l1 ++ f x :: l2 := by
  intro l
  induction l with
  | nil => intro x h; cases h
  | cons a l ih =>
    intro x h
    by_cases hpa : p a = true
    · rw [List.find?_cons_of_pos _ hpa] at h
      cases h
      exact ⟨[], l, rfl, by simp, by simp [updateFirst, hpa]⟩
    · rw [List.find?_cons_of_neg _ hpa] at h
      have hpa' : p a = false := by simpa using hpa
      obtain ⟨l1, l2, hdec, hl1, hupd⟩ := ih h
      refine ⟨a :: l1, l2, by simp [hdec], ?_, ?_⟩
      · intro y hy
        rcases List.mem_cons.mp hy with rfl | hy
        · exact hpa'
        · exact hl1 y hy
      · simp [updateFirst, hpa', hupd]

theorem map_updateFirst {α β : Type _} (g : α → β) (p : α → Bool)
    (f : α → α) (hg : ∀ x, g (f x) = g x) :
    ∀ (l : List α), (updateFirst p f l).map g = l.map g := by
  intro l
  induction l with
  | nil => rfl
  | cons a l ih =>
    by_cases hpa : p a = true
    · simp [updateFirst, hpa, hg]
    · have hpa' : p a = false := by simpa using hpa
      simp [updateFirst, hpa', ih]

theorem find?_conj_of_find?_some {α : Type _} {p q : α → Bool} :
    ∀ {l : List α} {x : α}, l.find? p = some x → q x = true →
      l.find? (fun y => p y && q y) = some x := by
  intro l
  induction l with
  | nil => intro x h; cases h
  | cons a l ih =>
    intro x h hq
    by_cases hpa : p a = true
    · rw [List.find?_cons_of_pos _ hpa] at h
      cases h
      exact List.find?_cons_of_pos _ (by simp [hpa, hq])
    · rw [List.find?_cons_of_neg _ hpa] at h
      rw [List.find?_cons_of_neg _ (by simp [hpa])]
      exact ih h hq

theorem find?_eq_some_of_unique {α : Type _} {p : α → Bool} :
    ∀ {l : List α} {x : α}, x ∈ l → p x = true →
      (∀ y ∈ l, p y = true → y = x) → l.find? p = some x := by
  intro l
  induction l with
  | nil => intro x hx; cases hx
  | cons a l ih =>
    intro x hx hpx huniq
    by_cases hpa : p a = true
    · rw [List.find?_cons_of_pos _ hpa]
      exact congrArg some (huniq a (by simp) hpa)
    · rw [List.find?_cons_of_neg _ hpa]
      rcases List.mem_cons.mp hx with rfl | hx
      · exact absurd hpx hpa
      · exact ih hx hpx (fun y hy hpy => huniq y (List.mem_cons_of_mem _ hy) hpy)

theorem find?_isSome_of_mem {α : Type _} {p : α → Bool} {l : List α} {x : α}
    (hx : x ∈ l) (hpx : p x = true) : (l.find? p).isSome := by
  induction l with
  | nil => cases hx
  | cons a l ih =>
    by_cases hpa : p a = true
    · rw [List.find?_cons_of_pos _ hpa]; rfl
    · rw [List.find?_cons_of_neg _ hpa]
      rcases List.mem_cons.mp hx with rfl | hx
      · exact absurd hpx hpa
      · exact ih hx

theorem ne_of_nodup_decomp {α β : Type _} {g : α → β} {U1 U2 : List α}
    {u : α} (h : ((U1 ++ u :: U2).map g).Nodup) :
    ∀ w, (w ∈ U1 ∨ w ∈ U2) → g w ≠ g u := by
  intro w hw hgw
  rw [List.map_append, List.map_cons] at h
  rcases hw with hw | hw
  · have hmem : g u ∈ U1.map g := hgw ▸ List.mem_map_of_mem g hw
    have hd := (List.nodup_append.mp h).2.2
    exact hd hmem (by simp)
  · have h2 := (List.nodup_append.mp h).2.1
    have hmem : g u ∈ U2.map g := hgw ▸ List.mem_map_of_mem g hw
    exact (List.nodup_cons.mp h2).1 hmem

theorem scoreSum_append (uid : String) (A B : List TaskRec) :
    scoreSum uid (A ++ B) = scoreSum uid A + scoreSum uid B := by
  simp [scoreSum, List.filter_append]

theorem scoreSum_cons (uid : String) (x : TaskRec) (B : List TaskRec) :
    scoreSum uid (x :: B) =
      (if counted uid x then x.score else 0) + scoreSum uid B := by
  by_cases hc : counted uid x = true
  · simp [scoreSum, List.filter_cons, hc]
  · have hc' : counted uid x = false := by simpa using hc
    simp [scoreSum, List.filter_cons, hc']

theorem _medal_grade_eq (completed total : Int) :
    _medal_grade completed total =
      if total ≤ 0 ∨ completed ≤ 0 then "None"
      else if (completed : ℚ) / (total : ℚ) ≥ 1 then "G"
      else if (completed : ℚ) / (total : ℚ) ≥ 66 / 100 then "S"
      else if (completed : ℚ) / (total : ℚ) ≥ 33 / 100 then "B"
      else "None" := rfl

theorem medalGradeSpec_eq (completed total : Int) :
    medalGradeSpec completed total =
      if (completed : ℚ) / (total : ℚ) ≥ 1 then "G"
      else if (completed : ℚ) / (total : ℚ) ≥ 66 / 100 then "S"
      else if (completed : ℚ) / (total : ℚ) ≥ 33 / 100 then "B"
      else "None" := rfl

/-- C7: on counts with `0 < total` and `0 ≤ completed ≤ total`, the medal
grading function returns no medal when the completion quotient is 0,
returns `B` when the quotient is exactly 1/3, returns `G` exactly when the
quotient is 1.0 (all of the day's tasks completed), and in general agrees
with the spec cascade (`G` at ≥ 1.0, `S` at ≥ 0.66, `B` at ≥ 0.33,
otherwise none). -/
theorem medal_grade_correct (completed total : Int)
    (h0 : 0 < total) (hc0 : 0 ≤ completed) (hct : completed ≤ total) :
    (completed = 0 → _medal_grade completed total = "None") ∧
    (3 * completed = total → _medal_grade completed total = "B") ∧
    (_medal_grade completed total = "G" ↔ completed = total) ∧
    _medal_grade completed total = medalGradeSpec completed total := by
  have hQt : (0 : ℚ) < (total : ℚ) := by exact_mod_cast h0
  have hG : (completed : ℚ) / (total : ℚ) ≥ 1 ↔ completed = total := by
    rw [ge_iff_le, one_le_div hQt]
    constructor
    · intro h
      have : total ≤ completed := by exact_mod_cast h
      omega
    · intro h
      rw [h]
  refine ⟨?_, ?_, ?_, ?_⟩
  · intro hc
    subst hc
    rw [_medal_grade_eq, if_pos (Or.inr le_rfl)]
  · intro h3
    have hcpos : 0 < completed := by omega
    have hrt : (completed : ℚ) / (total : ℚ) = 1 / 3 := by
      have hcQ : (completed : ℚ) ≠ 0 := by
        exact_mod_cast hcpos.ne'
      have htQ : (total : ℚ) = 3 * (completed : ℚ) := by
        exact_mod_cast h3.symm
      rw [htQ]
      field_simp
      ring
    rw [_medal_grade_eq, if_neg (by omega), hrt,
        if_neg (by norm_num), if_neg (by norm_num), if_pos (by norm_num)]
  · by_cases hc : completed ≤ 0
    · have hc0' : completed = 0 := le_antisymm hc hc0
      subst hc0'
      rw [_medal_grade_eq, if_pos (Or.inr le_rfl)]
      constructor
      · intro h; exact absurd h (by decide)
      · intro h; omega
    · rw [_medal_grade_eq, if_neg (by omega)]
      by_cases hge : (completed : ℚ) / (total : ℚ) ≥ 1
      · rw [if_pos hge]
        simp [hG.mp hge]
      · rw [if_neg hge]
        have hne : ¬ completed = total := fun h => hge (hG.mpr h)
        split_ifs <;> simp [hne]
  · by_cases hc : completed ≤ 0
    · have hc0' : completed = 0 := le_antisymm hc hc0
      subst hc0'
      rw [_medal_grade_eq, medalGradeSpec_eq, if_pos (Or.inr le_rfl)]
      have hz : ((0 : Int) : ℚ) / (total : ℚ) = 0 := by
        norm_num
      rw [hz]
      rw [if_neg (by norm_num), if_neg (by norm_num), if_neg (by norm_num)]
    · rw [_medal_grade_eq, medalGradeSpec_eq, if_neg (by omega)]

/-- Witness for `medal_grade_correct` at `completed = 1`, `total = 3`. -/
theorem medal_grade_correct_witness :
    (0 : Int) < 3 ∧ (0 : Int) ≤ 1 ∧ (1 : Int) ≤ 3 ∧
      (((1 : Int) = 0 → _medal_grade 1 3 = "None") ∧
       (3 * (1 : Int) = 3 → _medal_grade 1 3 = "B") ∧
       (_medal_grade 1 3 = "G" ↔ (1 : Int) = 3) ∧
       _medal_grade 1 3 = medalGradeSpec 1 3) :=
  ⟨by norm_num, by norm_num, by norm_num,
    medal_grade_correct 1 3 (by norm_num) (by norm_num) (by norm_num)⟩

theorem lb_update_good (username : String) (score : Int)
    (olb : Option (List LBEntry))
    (h : ∀ items, olb = some items →
      (items.map (fun e => e.username)).Nodup) :
    LBGood (lb_update username score olb) := by
  cases olb with
  | none => trivial
  | some items =>
    have hn := h items rfl
    have hpulled : ((items.filter
        (fun e : LBEntry => e.username != username)).map
        (fun e : LBEntry => e.username)).Nodup :=
      (((List.filter_sublist _).map _).nodup) hn
    have hbase : (((items.filter (fun e : LBEntry => e.username != username)) ++
        [(⟨username, score⟩ : LBEntry)]).map
        (fun e : LBEntry => e.username)).Nodup := by
      rw [List.map_append, List.nodup_append]
      refine ⟨hpulled, by simp, ?_⟩
      intro a ha
      obtain ⟨e, he, rfl⟩ := List.mem_map.mp ha
      have hne := (List.mem_filter.mp he).2
      simp only [List.map_cons, List.map_nil, List.mem_singleton]
      simpa using hne
    have hperm : List.Perm
        ((List.insertionSort lbRel
          ((items.filter (fun e : LBEntry => e.username != username)) ++
            [(⟨username, score⟩ : LBEntry)])).map
          (fun e : LBEntry => e.username))
        (((items.filter (fun e : LBEntry => e.username != username)) ++
          [(⟨username, score⟩ : LBEntry)]).map
          (fun e : LBEntry => e.username)) :=
      (List.perm_insertionSort _ _).map _
    simp only [lb_update, LBGood]
    refine ⟨?_, ?_, ?_⟩
    · simp [List.length_take]
    · exact List.Pairwise.sublist (List.take_sublist _ _)
        (List.sorted_insertionSort lbRel _)
    · rw [List.map_take]
      exact (List.take_sublist _ _).nodup (hperm.symm.nodup hbase)

theorem task_done_finish_lb (dayOf : String → String) (uid : String)
    (tid : Int) (task : TaskRec) (user : UserRec) (db3 : DB) :
    ((task_done_finish dayOf uid tid task user db3).2).lb = db3.lb ∨
    ((task_done_finish dayOf uid tid task user db3).2).lb =
      lb_update user.username user.score db3.lb := by
  unfold task_done_finish
  split
  · exact Or.inl rfl
  · exact Or.inr rfl

/-- C4: after every leaderboard write performed by `task_done` or
`task_undo`, the leaderboard singleton's `items` list has at most
K = 10 entries, is sorted by score descending with username ascending as
tie-break, and holds at most one entry per username; calls that do not
reach the leaderboard write leave it unchanged. -/
theorem leaderboard_after_update (dayOf : String → String) (db : DB)
    (hn : ∀ items, db.lb = some items →
      (items.map (fun e => e.username)).Nodup)
    (uid : String) (pid tid : Int) (now : String) :
    (((task_done dayOf uid pid tid now db).2).lb = db.lb ∨
      LBGood ((task_done dayOf uid pid tid now db).2).lb) ∧
    (((task_undo dayOf uid pid tid db).2).lb = db.lb ∨
      LBGood ((task_undo dayOf uid pid tid db).2).lb) := by
  constructor
  · unfold task_done
    split
    · exact Or.inl rfl
    · unfold task_done_plan
      split
      · exact Or.inl rfl
      · unfold task_done_user
        split
        · exact Or.inl rfl
        · split
          · exact Or.inl rfl
          · rcases task_done_finish_lb dayOf uid tid _ _ _ with h | h
            · exact Or.inl h
            · exact Or.inr (h ▸ lb_update_good _ _ _ hn)
  · unfold task_undo
    split
    · exact Or.inl rfl
    · split
      · exact Or.inl rfl
      · split
        · exact Or.inl rfl
        · unfold task_undo_plan
          split
          · exact Or.inl rfl
          · unfold task_undo_user
            split
            · exact Or.inl rfl
            · split
              · exact Or.inl rfl
              · exact Or.inr (lb_update_good _ _ _ hn)

/-- Witness for `leaderboard_after_update` on the sample database. -/
theorem leaderboard_after_update_witness :
    (∀ items, sampleDB.lb = some items →
      (items.map (fun e => e.username)).Nodup) ∧
    ((((task_done sampleDayOf "u1" 1 0 "T" sampleDB).2).lb = sampleDB.lb ∨
      LBGood ((task_done sampleDayOf "u1" 1 0 "T" sampleDB).2).lb) ∧
     (((task_undo sampleDayOf "u1" 1 0 sampleDB).2).lb = sampleDB.lb ∨
      LBGood ((task_undo sampleDayOf "u1" 1 0 sampleDB).2).lb)) :=
  ⟨by intro items h; cases h; decide,
    leaderboard_after_update sampleDayOf sampleDB
      (by intro items h; cases h; decide) "u1" 1 0 "T"⟩

theorem find?_append_cons {α : Type _} {p : α → Bool} {l2 : List α} {x : α} :
    ∀ {l1 : List α}, (∀ y ∈ l1, p y = false) → p x = true →
      (l1 ++ x :: l2).find? p = some x := by
  intro l1
  induction l1 with
  | nil => intro _ hx; simpa using List.find?_cons_of_pos _ hx
  | cons a l1 ih =>
    intro h1 hx
    rw [List.cons_append, List.find?_cons_of_neg]
    · exact ih (fun y hy => h1 y (List.mem_cons_of_mem _ hy)) hx
    · simp [h1 a (by simp)]

/-- C8 (code bug): `delete_plan` deletes nothing, ever.  Its first
statement, `db.update_one("plans", …)`, raises `KeyError('plans')` inside
`check_primary_keys` — `plans` is missing from `table_primary_keys_dict` —
and nothing catches it: every DeletePlan call fails with HTTP 500 and
performs no mutation.  In particular, on `sampleDB2` (an existing plan with
one completed and one pending task) the call errors, the whole state is
unchanged and the plan is still not marked deleted. -/
theorem delete_plan_never_deletes :
    (∀ (uid : String) (pid : Int) (db : DB),
      delete_plan uid pid db = (.error 500, db)) ∧
    ((delete_plan "u1" 1 sampleDB2).1 = .error 500 ∧
     (delete_plan "u1" 1 sampleDB2).2 = sampleDB2 ∧
     (findPlan? (delete_plan "u1" 1 sampleDB2).2 "u1" 1).map
        (fun p => p.deleted) = some false) :=
  ⟨fun _ _ _ => rfl, rfl, by decide, by decide⟩


theorem length_updateFirst {α : Type _} (p : α → Bool) (f : α → α) :
    ∀ l : List α, (updateFirst p f l).length = l.length := by
  intro l
  induction l with
  | nil => rfl
  | cons a l ih =>
    by_cases hpa : p a = true
    · simp [updateFirst, hpa]
    · have hpa' : p a = false := by simpa using hpa
      simp [updateFirst, hpa', ih]

theorem updateFirst_getElem_of_false {α : Type _} {p : α → Bool}
    (f : α → α) : ∀ (l : List α) (i : Nat) (h1 : i < l.length)
      (h2 : i < (updateFirst p f l).length),
      p (l[i]) = false → (updateFirst p f l)[i] = l[i] := by
  intro l
  induction l with
  | nil => intro i h1; simp at h1
  | cons a l ih =>
    intro i h1 h2 hp
    by_cases hpa : p a = true
    · cases i with
      | zero =>
        rw [List.getElem_cons_zero] at hp
        rw [hpa] at hp
        cases hp
      | succ j =>
        have heq : updateFirst p f (a :: l) = f a :: l := by
          simp [updateFirst, hpa]
        rw [List.getElem_of_eq heq h2, List.getElem_cons_succ,
          List.getElem_cons_succ]
    · have hpa' : p a = false := by simpa using hpa
      have heq : updateFirst p f (a :: l) = a :: updateFirst p f l := by
        simp [updateFirst, hpa']
      cases i with
      | zero => rw [List.getElem_of_eq heq h2]; simp
      | succ j =>
        rw [List.getElem_of_eq heq h2, List.getElem_cons_succ,
          List.getElem_cons_succ]
        exact ih j (by simpa using h1)
          (by rw [length_updateFirst]; simpa using h1) (by simpa using hp)

theorem retask_eq (db : DB) (hC : Consistent db) (uid : String)
    (pid tid : Int) (reason : String) (result : RetaskResult)
    (task : TaskRec) (plan : PlanRec)
    (ht : db.tasks.find? (fun t => taskKeyP uid pid tid t && !t.deleted) =
      some task)
    (hplan : db.plans.find? (fun p => planKeyP uid pid p && !p.deleted) =
      some plan)
    (hprompts : plan.prompts ≠ []) :
    retask uid pid tid reason (some result) db =
      (.ok (retaskNote plan.prompts.getLast?.join tid reason),
       { db with
          tasks := updateFirst (fun t => taskKeyP uid pid tid t)
            (retaskPatch result) db.tasks,
          plans := updateFirst (planKeyP uid pid)
            (fun p => {p with prompts := plan.prompts.dropLast ++
              [some (retaskNote plan.prompts.getLast?.join tid reason)]})
            db.plans }) := by
  have htk : taskKeyP uid pid tid task = true := by
    have h1 := List.find?_some ht
    simp only [Bool.and_eq_true] at h1
    exact h1.1
  have hany : db.tasks.any (fun t => taskKeyP uid pid tid t) = true :=
    List.any_eq_true.mpr ⟨task, List.mem_of_find?_eq_some ht, htk⟩
  have hpk : planKeyP uid pid plan = true := by
    have h1 := List.find?_some hplan
    simp only [Bool.and_eq_true] at h1
    exact h1.1
  have hplanfind : db.plans.find? (planKeyP uid pid) = some plan := by
    apply find?_eq_some_of_unique (List.mem_of_find?_eq_some hplan) hpk
    intro y hy hyk
    apply List.inj_on_of_nodup_map hC.plans_nodup hy
      (List.mem_of_find?_eq_some hplan)
    have h2 : y.user_id = uid ∧ y.plan_id = pid := by
      simpa [planKeyP] using hyk
    have h3 : plan.user_id = uid ∧ plan.plan_id = pid := by
      simpa [planKeyP] using hpk
    simp [h2.1, h2.2, h3.1, h3.2]
  have hempty : plan.prompts.isEmpty = false := by
    simpa [List.isEmpty_iff] using hprompts
  simp only [retask, ht, hplan, hempty, hany, findOneAndUpdateA, hplanfind,
    pyStr, if_true]
  rfl

theorem plan_find?_key (db : DB) (hC : Consistent db) {uid : String}
    {pid : Int} {plan : PlanRec}
    (hplan : db.plans.find? (fun p => planKeyP uid pid p && !p.deleted) =
      some plan) :
    db.plans.find? (planKeyP uid pid) = some plan := by
  have hpk : planKeyP uid pid plan = true := by
    have h1 := List.find?_some hplan
    simp only [Bool.and_eq_true] at h1
    exact h1.1
  apply find?_eq_some_of_unique (List.mem_of_find?_eq_some hplan) hpk
  intro y hy hyk
  apply List.inj_on_of_nodup_map hC.plans_nodup hy
    (List.mem_of_find?_eq_some hplan)
  have h2 : y.user_id = uid ∧ y.plan_id = pid := by
    simpa [planKeyP] using hyk
  have h3 : plan.user_id = uid ∧ plan.plan_id = pid := by
    simpa [planKeyP] using hpk
  simp [h2.1, h2.2, h3.1, h3.2]

theorem task_find?_key (db : DB) (hC : Consistent db) {uid : String}
    {pid tid : Int} {task : TaskRec}
    (ht : db.tasks.find? (fun t => taskKeyP uid pid tid t && !t.deleted) =
      some task) :
    db.tasks.find? (fun t => taskKeyP uid pid tid t) = some task := by
  have htk : taskKeyP uid pid tid task = true := by
    have h1 := List.find?_some ht
    simp only [Bool.and_eq_true] at h1
    exact h1.1
  apply find?_eq_some_of_unique (List.mem_of_find?_eq_some ht) htk
  intro y hy hyk
  apply List.inj_on_of_nodup_map hC.tasks_nodup hy
    (List.mem_of_find?_eq_some ht)
  have h2 : (y.task_id = tid ∧ y.user_id = uid) ∧ y.plan_id = pid := by
    simpa [taskKeyP] using hyk
  have h3 : (task.task_id = tid ∧ task.user_id = uid) ∧
      task.plan_id = pid := by
    simpa [taskKeyP] using htk
  simp [h2.1.1, h2.1.2, h2.2, h3.1.1, h3.1.2, h3.2]

/-- C9: a successful `retask` on a plan with non-empty prompts history
overwrites only the target task's `title/description/difficulty/score/
deadline_date` in place (identical `task_id`, `completed_at` reset to
null), appends the modification note to the last element only of the
plan's `prompts` array, and leaves all earlier prompts entries, the
`responses` array, every other task document and every other plan document
unchanged. -/
theorem retask_frame (db : DB) (hC : Consistent db) (uid : String)
    (pid tid : Int) (reason : String) (result : RetaskResult)
    (task : TaskRec) (plan : PlanRec)
    (ht : db.tasks.find? (fun t => taskKeyP uid pid tid t && !t.deleted) =
      some task)
    (hplan : db.plans.find? (fun p => planKeyP uid pid p && !p.deleted) =
      some plan)
    (hprompts : plan.prompts ≠ []) :
    (retask uid pid tid reason (some result) db).1 =
      .ok (retaskNote plan.prompts.getLast?.join tid reason) ∧
    findTask? (retask uid pid tid reason (some result) db).2 uid pid tid =
      some (retaskPatch result task) ∧
    (retaskPatch result task).task_id = task.task_id ∧
    (retaskPatch result task).completed_at = none ∧
    (∀ i, ∀ h1 : i < db.tasks.length,
      ∀ h2 : i < (retask uid pid tid reason (some result) db).2.tasks.length,
      taskKeyP uid pid tid db.tasks[i] = false →
        (retask uid pid tid reason (some result) db).2.tasks[i] =
          db.tasks[i]) ∧
    findPlan? (retask uid pid tid reason (some result) db).2 uid pid =
      some {plan with prompts := plan.prompts.dropLast ++
        [some (retaskNote plan.prompts.getLast?.join tid reason)]} ∧
    ((findPlan? (retask uid pid tid reason (some result) db).2 uid pid).map
      (fun q => q.prompts.dropLast)) = some plan.prompts.dropLast ∧
    ((findPlan? (retask uid pid tid reason (some result) db).2 uid pid).map
      (fun q => q.prompts.length)) = some plan.prompts.length ∧
    ((findPlan? (retask uid pid tid reason (some result) db).2 uid pid).map
      (fun q => q.responses)) = some plan.responses ∧
    (∀ i, ∀ h1 : i < db.plans.length,
      ∀ h2 : i < (retask uid pid tid reason (some result) db).2.plans.length,
      planKeyP uid pid db.plans[i] = false →
        (retask uid pid tid reason (some result) db).2.plans[i] =
          db.plans[i]) := by
  have heqr := retask_eq db hC uid pid tid reason result task plan ht hplan
    hprompts
  have htk : taskKeyP uid pid tid task = true := by
    have h1 := List.find?_some ht
    simp only [Bool.and_eq_true] at h1
    exact h1.1
  have htfind := task_find?_key db hC ht
  have hplanfind := plan_find?_key db hC hplan
  have hpk : planKeyP uid pid plan = true := by
    have h1 := List.find?_some hplan
    simp only [Bool.and_eq_true] at h1
    exact h1.1
  obtain ⟨L1, L2, hdecT, hfailT, hupdT⟩ :=
    find?_decomp (retaskPatch result) htfind
  obtain ⟨P1, P2, hdecP, hfailP, hupdP⟩ := find?_decomp
    (fun p => {p with prompts := plan.prompts.dropLast ++
      [some (retaskNote plan.prompts.getLast?.join tid reason)]}) hplanfind
  have hpatchk : taskKeyP uid pid tid (retaskPatch result task) = true := by
    simpa [taskKeyP, retaskPatch] using htk
  have hppatchk : planKeyP uid pid {plan with prompts :=
      plan.prompts.dropLast ++
        [some (retaskNote plan.prompts.getLast?.join tid reason)]} = true := by
    simpa [planKeyP] using hpk
  have hfp : findPlan? (retask uid pid tid reason (some result) db).2 uid pid =
      some {plan with prompts := plan.prompts.dropLast ++
        [some (retaskNote plan.prompts.getLast?.join tid reason)]} := by
    rw [heqr]
    show (updateFirst (planKeyP uid pid) _ db.plans).find? (planKeyP uid pid) = _
    rw [hupdP]
    exact find?_append_cons hfailP hppatchk
  have hlen : plan.prompts.length - 1 + 1 = plan.prompts.length := by
    have := List.length_pos.mpr hprompts
    omega
  refine ⟨by rw [heqr], ?_, rfl, rfl, ?_, hfp, ?_, ?_, ?_, ?_⟩
  · rw [heqr]
    show (updateFirst (fun t => taskKeyP uid pid tid t) _ db.tasks).find?
      (taskKeyP uid pid tid) = _
    rw [hupdT]
    exact find?_append_cons hfailT hpatchk
  · intro i h1 h2 hx
    have htasks_eq : (retask uid pid tid reason (some result) db).2.tasks =
        updateFirst (fun t => taskKeyP uid pid tid t) (retaskPatch result)
          db.tasks := by rw [heqr]
    rw [List.getElem_of_eq htasks_eq h2]
    exact updateFirst_getElem_of_false _ db.tasks i h1
      (by rw [length_updateFirst]; exact h1) hx
  · rw [hfp]
    simp only [Option.map_some', Option.some.injEq]
    exact List.dropLast_concat
  · rw [hfp]
    simp only [Option.map_some', Option.some.injEq, List.length_append,
      List.length_dropLast, List.length_cons, List.length_nil]
    omega
  · rw [hfp]
    rfl
  · intro i h1 h2 hx
    have hplans_eq : (retask uid pid tid reason (some result) db).2.plans =
        updateFirst (planKeyP uid pid)
          (fun p => {p with prompts := plan.prompts.dropLast ++
            [some (retaskNote plan.prompts.getLast?.join tid reason)]})
          db.plans := by rw [heqr]
    rw [List.getElem_of_eq hplans_eq h2]
    exact updateFirst_getElem_of_false _ db.plans i h1
      (by rw [length_updateFirst]; exact h1) hx

/-- Witness for `retask_frame` on `sampleDB2`, task 1. -/
theorem retask_frame_witness :
    (Consistent sampleDB2 ∧
     sampleDB2.tasks.find?
       (fun t => taskKeyP "u1" 1 1 t && !t.deleted) =
       some (mkSampleTask 1 30 "2025-01-02") ∧
     sampleDB2.plans.find? (fun p => planKeyP "u1" 1 p && !p.deleted) =
       some samplePlan2 ∧
     samplePlan2.prompts ≠ []) ∧
    (retask "u1" 1 1 "too hard" (some sampleRetaskRes) sampleDB2).1 =
      .ok (retaskNote samplePlan2.prompts.getLast?.join 1 "too hard") :=
  ⟨⟨⟨by decide, by decide, by decide, by decide, by decide, by decide,
      by decide, by decide, by decide⟩, by decide, by decide, by decide⟩,
   (retask_frame sampleDB2
      ⟨by decide, by decide, by decide, by decide, by decide, by decide,
        by decide, by decide, by decide⟩
      "u1" 1 1 "too hard" sampleRetaskRes (mkSampleTask 1 30 "2025-01-02")
      samplePlan2 (by decide) (by decide) (by decide)).1⟩

/-- C10: a successful `retask` on a task whose `completed_at` was non-null
resets that task's `completed_at` to null but changes no user document
(`User.score` and `User.n_tasks_done` included) and leaves the plan's
`n_tasks_done` and `completed_at` untouched — the user keeps the score
credited for a task that is no longer marked completed, and the accounting
sum of completed non-deleted task scores drops by that task's score. -/
theorem retask_completed_keeps_credit (db : DB) (hC : Consistent db)
    (uid : String) (pid tid : Int) (reason : String) (result : RetaskResult)
    (task : TaskRec) (plan : PlanRec) (ts0 : String)
    (ht : db.tasks.find? (fun t => taskKeyP uid pid tid t && !t.deleted) =
      some task)
    (hplan : db.plans.find? (fun p => planKeyP uid pid p && !p.deleted) =
      some plan)
    (hprompts : plan.prompts ≠ [])
    (hdone : task.completed_at = some ts0) :
    ((retask uid pid tid reason (some result) db).2).users = db.users ∧
    (findTask? (retask uid pid tid reason (some result) db).2 uid pid tid).map
      (fun t => t.completed_at) = some none ∧
    (findPlan? (retask uid pid tid reason (some result) db).2 uid pid).map
      (fun q => q.n_tasks_done) = some plan.n_tasks_done ∧
    (findPlan? (retask uid pid tid reason (some result) db).2 uid pid).map
      (fun q => q.completed_at) = some plan.completed_at ∧
    scoreSum uid ((retask uid pid tid reason (some result) db).2).tasks =
      scoreSum uid db.tasks - task.score := by
  have heqr := retask_eq db hC uid pid tid reason result task plan ht hplan
    hprompts
  have htfind := task_find?_key db hC ht
  have hplanfind := plan_find?_key db hC hplan
  have htk : taskKeyP uid pid tid task = true := by
    have h1 := List.find?_some ht
    simp only [Bool.and_eq_true] at h1
    exact h1.1
  have hdel : task.deleted = false := by
    have h1 := List.find?_some ht
    simp only [Bool.and_eq_true] at h1
    simpa using h1.2
  have huid : task.user_id = uid := by
    have h2 : (task.task_id = tid ∧ task.user_id = uid) ∧
        task.plan_id = pid := by
      simpa [taskKeyP] using htk
    exact h2.1.2
  obtain ⟨L1, L2, hdecT, hfailT, hupdT⟩ :=
    find?_decomp (retaskPatch result) htfind
  have hpatchk : taskKeyP uid pid tid (retaskPatch result task) = true := by
    simpa [taskKeyP, retaskPatch] using htk
  have hft : findTask? (retask uid pid tid reason (some result) db).2 uid
      pid tid = some (retaskPatch result task) := by
    rw [heqr]
    show (updateFirst (fun t => taskKeyP uid pid tid t) _ db.tasks).find?
      (taskKeyP uid pid tid) = _
    rw [hupdT]
    exact find?_append_cons hfailT hpatchk
  obtain ⟨P1, P2, hdecP, hfailP, hupdP⟩ := find?_decomp
    (fun p => {p with prompts := plan.prompts.dropLast ++
      [some (retaskNote plan.prompts.getLast?.join tid reason)]}) hplanfind
  have hpk : planKeyP uid pid plan = true := by
    have h1 := List.find?_some hplan
    simp only [Bool.and_eq_true] at h1
    exact h1.1
  have hppatchk : planKeyP uid pid {plan with prompts :=
      plan.prompts.dropLast ++
        [some (retaskNote plan.prompts.getLast?.join tid reason)]} = true := by
    simpa [planKeyP] using hpk
  have hfp : findPlan? (retask uid pid tid reason (some result) db).2 uid
      pid = some {plan with prompts := plan.prompts.dropLast ++
        [some (retaskNote plan.prompts.getLast?.join tid reason)]} := by
    rw [heqr]
    show (updateFirst (planKeyP uid pid) _ db.plans).find?
      (planKeyP uid pid) = _
    rw [hupdP]
    exact find?_append_cons hfailP hppatchk
  refine ⟨by rw [heqr], by rw [hft]; rfl, by rw [hfp]; rfl,
    by rw [hfp]; rfl, ?_⟩
  have htasks_eq : (retask uid pid tid reason (some result) db).2.tasks =
      updateFirst (fun t => taskKeyP uid pid tid t) (retaskPatch result)
        db.tasks := by rw [heqr]
  rw [htasks_eq, hupdT, hdecT, scoreSum_append, scoreSum_append,
    scoreSum_cons, scoreSum_cons]
  have hc1 : counted uid task = true := by
    simp [counted, huid, hdel, hdone]
  have hc2 : counted uid (retaskPatch result task) = false := by
    simp [counted, retaskPatch]
  rw [hc1, hc2]
  simp only [if_true]
  simp only [Bool.false_eq_true, if_false]
  omega

/-- Witness for `retask_completed_keeps_credit` on `sampleDB2`, task 0. -/
theorem retask_completed_keeps_credit_witness :
    (Consistent sampleDB2 ∧
     sampleDB2.tasks.find? (fun t => taskKeyP "u1" 1 0 t && !t.deleted) =
       some { mkSampleTask 0 10 "2025-01-01" with
                completed_at := some "2025-01-01T10:00:00" } ∧
     sampleDB2.plans.find? (fun p => planKeyP "u1" 1 p && !p.deleted) =
       some samplePlan2 ∧
     samplePlan2.prompts ≠ [] ∧
     ({ mkSampleTask 0 10 "2025-01-01" with
          completed_at := some "2025-01-01T10:00:00" } :
        TaskRec).completed_at = some "2025-01-01T10:00:00") ∧
    ((retask "u1" 1 0 "redo" (some sampleRetaskRes) sampleDB2).2).users =
      sampleDB2.users :=
  ⟨⟨⟨by decide, by decide, by decide, by decide, by decide, by decide,
      by decide, by decide, by decide⟩, by decide, by decide, by decide,
      by decide⟩,
   (retask_completed_keeps_credit sampleDB2
      ⟨by decide, by decide, by decide, by decide, by decide, by decide,
        by decide, by decide, by decide⟩
      "u1" 1 0 "redo" sampleRetaskRes
      { mkSampleTask 0 10 "2025-01-01" with
          completed_at := some "2025-01-01T10:00:00" }
      samplePlan2 "2025-01-01T10:00:00" (by decide) (by decide) (by decide)
      (by decide)).1⟩

theorem doneTotal_ne_zero (uid day : String) (tid : Int)
    (ts : List TaskRec) : doneTotal uid day tid ts ≠ 0 := by
  unfold doneTotal
  split
  · rename_i hpres
    have hne : sameDayTasks uid day ts ≠ [] := by
      intro h
      rw [sameDayPresent, h] at hpres
      simp at hpres
    have hlen : 0 < (sameDayTasks uid day ts).length := List.length_pos.mpr hne
    intro h
    omega
  · intro h
    omega

theorem task_done_eq (dayOf : String → String) (db : DB)
    (uid : String) (pid tid : Int) (now : String)
    (task : TaskRec) (plan : PlanRec) (user : UserRec)
    (ht : db.tasks.find? (fun t => taskKeyP uid pid tid t && !t.deleted &&
      t.completed_at.isNone) = some task)
    (hp : db.plans.find? (planKeyP uid pid) = some plan)
    (hu : db.users.find? (userKeyP uid) = some user)
    (hname : user.username ≠ "") :
    task_done dayOf uid pid tid now db =
      (.ok (user.score + task.score),
       { tasks := updateFirst (fun t => taskKeyP uid pid tid t &&
            !t.deleted && t.completed_at.isNone)
            (fun t => {t with completed_at := some now}) db.tasks,
         plans := updateFirst (planKeyP uid pid) (task_done_plan_upd now)
            db.plans,
         users := updateFirst (userKeyP uid)
            (task_done_user_upd pid task.score (task_done_plan_upd now plan))
            db.users,
         medals := db.medals,
         lb := lb_update user.username (user.score + task.score) db.lb }) := by
  have hTne := doneTotal_ne_zero uid (dayOf task.deadline_date) tid
    (updateFirst (fun t => taskKeyP uid pid tid t &&
      !t.deleted && t.completed_at.isNone)
      (fun t => {t with completed_at := some now}) db.tasks)
  simp only [task_done, task_done_plan, task_done_user, task_done_finish,
    findOneAndUpdateA, ht, hp, hu]
  rw [if_neg (by simpa [task_done_user_upd] using hname)]
  rw [if_neg (by simpa using hTne)]
  rfl

theorem task_undo_eq (dayOf : String → String) (db : DB)
    (uid : String) (pid tid : Int)
    (task_doc : TaskRec) (plan : PlanRec) (user : UserRec)
    (ht1 : db.tasks.find? (fun t => taskKeyP uid pid tid t && !t.deleted) =
      some task_doc)
    (hdone : task_doc.completed_at.isSome = true)
    (hp : db.plans.find? (planKeyP uid pid) = some plan)
    (hu : db.users.find? (userKeyP uid) = some user)
    (hname : user.username ≠ "") :
    task_undo dayOf uid pid tid db =
      (.ok (user.score - task_doc.score),
       { tasks := updateFirst (fun t => taskKeyP uid pid tid t &&
            !t.deleted && t.completed_at.isSome)
            (fun t => {t with completed_at := none}) db.tasks,
         plans := updateFirst (planKeyP uid pid) task_undo_plan_upd db.plans,
         users := updateFirst (userKeyP uid)
            (task_undo_user_upd pid task_doc.score) db.users,
         medals := db.medals,
         lb := lb_update user.username (user.score - task_doc.score)
            db.lb }) := by
  have ht2 : db.tasks.find? (fun t => taskKeyP uid pid tid t &&
      !t.deleted && t.completed_at.isSome) = some task_doc :=
    find?_conj_of_find?_some ht1 hdone
  have hnotnone : task_doc.completed_at.isNone = false := by
    cases hcc : task_doc.completed_at with
    | none => rw [hcc] at hdone; cases hdone
    | some v => rfl
  simp only [task_undo, task_undo_plan, task_undo_user, task_undo_finish,
    findOneAndUpdateA, ht1, ht2, hp, hu, hnotnone]
  rw [if_neg (by simp)]
  rw [if_neg (by simpa [task_undo_user_upd] using hname)]
  rfl

/-- C2: when `CompleteTask` succeeds on a pending task, a second
`CompleteTask` on the same `(user, plan, task)` fails with `NotFound` (404)
and leaves the whole state — the user's score included — untouched: across
the two calls `User.score` is credited exactly once, by the task's score. -/
theorem complete_task_idempotent (dayOf : String → String) (db : DB)
    (hC : Consistent db) (uid : String) (pid tid : Int) (now now2 : String)
    (task : TaskRec) (plan : PlanRec) (user : UserRec)
    (ht : db.tasks.find? (fun t => taskKeyP uid pid tid t && !t.deleted &&
      t.completed_at.isNone) = some task)
    (hp : db.plans.find? (planKeyP uid pid) = some plan)
    (hu : db.users.find? (userKeyP uid) = some user)
    (hname : user.username ≠ "") :
    (task_done dayOf uid pid tid now db).1 = .ok (user.score + task.score) ∧
    task_done dayOf uid pid tid now2 (task_done dayOf uid pid tid now db).2 =
      (.error 404, (task_done dayOf uid pid tid now db).2) ∧
    (findUser? (task_done dayOf uid pid tid now db).2 uid).map
      (fun v => v.score) = some (user.score + task.score) := by
  have heq := task_done_eq dayOf db uid pid tid now task plan user ht hp hu
    hname
  obtain ⟨L1, L2, hdecT, hfailT, hupdT⟩ := find?_decomp
    (fun t => {t with completed_at := some now}) ht
  have hkey_task : taskKeyP uid pid tid task = true := by
    have h1 := List.find?_some ht
    simp only [Bool.and_eq_true] at h1
    exact h1.1.1
  have hnone : (updateFirst (fun t => taskKeyP uid pid tid t && !t.deleted &&
      t.completed_at.isNone) (fun t => {t with completed_at := some now})
      db.tasks).find? (fun t => taskKeyP uid pid tid t && !t.deleted &&
      t.completed_at.isNone) = none := by
    rw [hupdT, List.find?_eq_none]
    intro x hx
    rcases List.mem_append.mp hx with hx1 | hx2
    · simp [hfailT x hx1]
    · rcases List.mem_cons.mp hx2 with rfl | hx3
      · intro h
        simp only [Bool.and_eq_true] at h
        simpa using h.2
      · intro h
        simp only [Bool.and_eq_true] at h
        have hxkey := h.1.1
        have hne := ne_of_nodup_decomp
          (g := fun t : TaskRec => (t.user_id, t.plan_id, t.task_id))
          (hdecT ▸ hC.tasks_nodup) x (Or.inr hx3)
        apply hne
        have h2 : (x.task_id = tid ∧ x.user_id = uid) ∧ x.plan_id = pid := by
          simpa [taskKeyP] using hxkey
        have h3 : (task.task_id = tid ∧ task.user_id = uid) ∧
            task.plan_id = pid := by
          simpa [taskKeyP] using hkey_task
        simp [h2.1.1, h2.1.2, h2.2, h3.1.1, h3.1.2, h3.2]
  refine ⟨by rw [heq], ?_, ?_⟩
  · rw [heq]
    simp only [task_done, findOneAndUpdateA, hnone]
  · rw [heq]
    obtain ⟨U1, U2, hdecU, hfailU, hupdU⟩ := find?_decomp
      (task_done_user_upd pid task.score (task_done_plan_upd now plan)) hu
    have hukey : userKeyP uid (task_done_user_upd pid task.score
        (task_done_plan_upd now plan) user) = true := by
      have h4 := List.find?_some hu
      simpa [userKeyP, task_done_user_upd] using h4
    show ((updateFirst (userKeyP uid) _ db.users).find? (userKeyP uid)).map
      _ = _
    rw [hupdU, find?_append_cons hfailU hukey]
    rfl

/-- Witness for `complete_task_idempotent` on `sampleDB`, task 0. -/
theorem complete_task_idempotent_witness :
    (Consistent sampleDB ∧
     sampleDB.tasks.find? (fun t => taskKeyP "u1" 1 0 t && !t.deleted &&
       t.completed_at.isNone) = some (mkSampleTask 0 10 "2025-01-01") ∧
     sampleDB.plans.find? (planKeyP "u1" 1) = some
       { plan_id := 1, user_id := "u1", n_tasks := 3,
         n_tasks_done := 0, n_replans := 0, deleted := false,
         completed_at := none, next_task_id := 3,
         prompts := [some "goal"], responses := [some "resp"] } ∧
     sampleDB.users.find? (userKeyP "u1") = some
       { user_id := "u1", username := "alice", score := 0,
         n_tasks_done := 0, n_plans := 1, active_plans := [1] } ∧
     ("alice" : String) ≠ "") ∧
    (task_done sampleDayOf "u1" 1 0 "T1" sampleDB).1 =
      .ok (0 + (mkSampleTask 0 10 "2025-01-01").score) :=
  ⟨⟨⟨by decide, by decide, by decide, by decide, by decide, by decide,
      by decide, by decide, by decide⟩, by decide, by decide, by decide,
      by decide⟩,
   (complete_task_idempotent sampleDayOf sampleDB
      ⟨by decide, by decide, by decide, by decide, by decide, by decide,
        by decide, by decide, by decide⟩
      "u1" 1 0 "T1" "T2" (mkSampleTask 0 10 "2025-01-01")
      { plan_id := 1, user_id := "u1", n_tasks := 3,
        n_tasks_done := 0, n_replans := 0, deleted := false,
        completed_at := none, next_task_id := 3,
        prompts := [some "goal"], responses := [some "resp"] }
      { user_id := "u1", username := "alice", score := 0,
        n_tasks_done := 0, n_plans := 1, active_plans := [1] }
      (by decide) (by decide) (by decide) (by decide)).1⟩

/-- C3: on a consistent state, completing a pending, non-deleted task and
immediately undoing it on the same `(user, plan, task)` restores
`User.score`, `Plan.n_tasks_done` and `Plan.completed_at` to their values
before the completion (a full round-trip no-op on those three fields). -/
theorem complete_undo_roundtrip (dayOf : String → String) (db : DB)
    (hC : Consistent db) (uid : String) (pid tid : Int) (now : String)
    (task : TaskRec) (plan : PlanRec) (user : UserRec)
    (ht : db.tasks.find? (fun t => taskKeyP uid pid tid t && !t.deleted &&
      t.completed_at.isNone) = some task)
    (hp : db.plans.find? (planKeyP uid pid) = some plan)
    (hu : db.users.find? (userKeyP uid) = some user)
    (hname : user.username ≠ "") :
    ((findUser? (task_undo dayOf uid pid tid
        (task_done dayOf uid pid tid now db).2).2 uid).map
        (fun v => v.score) =
      (findUser? db uid).map (fun v => v.score)) ∧
    ((findPlan? (task_undo dayOf uid pid tid
        (task_done dayOf uid pid tid now db).2).2 uid pid).map
        (fun q => q.n_tasks_done) =
      (findPlan? db uid pid).map (fun q => q.n_tasks_done)) ∧
    ((findPlan? (task_undo dayOf uid pid tid
        (task_done dayOf uid pid tid now db).2).2 uid pid).map
        (fun q => q.completed_at) =
      (findPlan? db uid pid).map (fun q => q.completed_at)) := by
  have heq1 := task_done_eq dayOf db uid pid tid now task plan user ht hp hu
    hname
  have hpred := List.find?_some ht
  simp only [Bool.and_eq_true] at hpred
  have hkey_task : taskKeyP uid pid tid task = true := hpred.1.1
  have hdel : task.deleted = false := by simpa using hpred.1.2
  have hnone_t : task.completed_at = none :=
    Option.isNone_iff_eq_none.mp hpred.2
  have hkparts : (task.task_id = tid ∧ task.user_id = uid) ∧
      task.plan_id = pid := by
    simpa [taskKeyP] using hkey_task
  have hpkey : planKeyP uid pid plan = true := List.find?_some hp
  have hpparts : plan.user_id = uid ∧ plan.plan_id = pid := by
    simpa [planKeyP] using hpkey
  -- the plan is not completed in the pre-state: it still has a pending task
  have hplan_none : plan.completed_at = none := by
    by_contra hne
    have h0 := hC.plan_completed plan (List.mem_of_find?_eq_some hp) hne
    have hmem1 : task ∈ planTasks plan.user_id plan.plan_id db.tasks := by
      unfold planTasks
      rw [List.mem_filter]
      refine ⟨List.mem_of_find?_eq_some ht, ?_⟩
      simp [hkparts.1.2, hkparts.2, hpparts.1, hpparts.2, hdel]
    have hmem2 : task ∈ (planTasks plan.user_id plan.plan_id
        db.tasks).filter (fun t => t.completed_at.isNone) := by
      rw [List.mem_filter]
      exact ⟨hmem1, by simp [hnone_t]⟩
    have := List.length_pos.mpr (List.ne_nil_of_mem hmem2)
    rw [pendingCount] at h0
    omega
  have hdone_nonneg : 0 ≤ plan.n_tasks_done := by
    rw [hC.plan_done_count plan (List.mem_of_find?_eq_some hp)]
    exact Int.ofNat_nonneg _
  -- decompositions produced by the completion
  obtain ⟨L1, L2, hdecT, hfailT, hupdT⟩ := find?_decomp
    (fun t => {t with completed_at := some now}) ht
  obtain ⟨P1, P2, hdecP, hfailP, hupdP⟩ := find?_decomp
    (task_done_plan_upd now) hp
  obtain ⟨U1, U2, hdecU, hfailU, hupdU⟩ := find?_decomp
    (task_done_user_upd pid task.score (task_done_plan_upd now plan)) hu
  -- projections of the intermediate state
  have hdb1t : (task_done dayOf uid pid tid now db).2.tasks =
      updateFirst (fun t => taskKeyP uid pid tid t && !t.deleted &&
        t.completed_at.isNone) (fun t => {t with completed_at := some now})
      db.tasks := by rw [heq1]
  have hdb1p : (task_done dayOf uid pid tid now db).2.plans =
      updateFirst (planKeyP uid pid) (task_done_plan_upd now) db.plans := by
    rw [heq1]
  have hdb1u : (task_done dayOf uid pid tid now db).2.users =
      updateFirst (userKeyP uid) (task_done_user_upd pid task.score
        (task_done_plan_upd now plan)) db.users := by rw [heq1]
  -- lookups in the intermediate state
  have ht1 : (updateFirst (fun t => taskKeyP uid pid tid t && !t.deleted &&
      t.completed_at.isNone) (fun t => {t with completed_at := some now})
      db.tasks).find? (fun t => taskKeyP uid pid tid t && !t.deleted) =
      some {task with completed_at := some now} := by
    apply find?_eq_some_of_unique
    · rw [hupdT]
      exact List.mem_append_right _ (by simp)
    · simp only [Bool.and_eq_true]
      constructor
      · simpa [taskKeyP] using hkey_task
      · simp [hdel]
    · intro y hy hyk
      have hmapeq : (updateFirst (fun t => taskKeyP uid pid tid t &&
          !t.deleted && t.completed_at.isNone)
          (fun t => {t with completed_at := some now}) db.tasks).map
          (fun t : TaskRec => (t.user_id, t.plan_id, t.task_id)) =
          db.tasks.map
            (fun t : TaskRec => (t.user_id, t.plan_id, t.task_id)) :=
        map_updateFirst
          (fun t : TaskRec => (t.user_id, t.plan_id, t.task_id))
          (fun t => taskKeyP uid pid tid t && !t.deleted &&
            t.completed_at.isNone)
          (fun t => {t with completed_at := some now}) (fun x => rfl)
          db.tasks
      have hnd : ((updateFirst (fun t => taskKeyP uid pid tid t &&
          !t.deleted && t.completed_at.isNone)
          (fun t => {t with completed_at := some now}) db.tasks).map
          (fun t : TaskRec => (t.user_id, t.plan_id, t.task_id))).Nodup := by
        rw [hmapeq]; exact hC.tasks_nodup
      apply List.inj_on_of_nodup_map hnd hy
      · rw [hupdT]
        exact List.mem_append_right _ (by simp)
      · simp only [Bool.and_eq_true] at hyk
        have h2 : (y.task_id = tid ∧ y.user_id = uid) ∧ y.plan_id = pid := by
          simpa [taskKeyP] using hyk.1
        simp [h2.1.1, h2.1.2, h2.2, hkparts.1.1, hkparts.1.2, hkparts.2]
  have hp1 : (updateFirst (planKeyP uid pid) (task_done_plan_upd now)
      db.plans).find? (planKeyP uid pid) =
      some (task_done_plan_upd now plan) := by
    rw [hupdP]
    exact find?_append_cons hfailP (by simpa [planKeyP, task_done_plan_upd]
      using hpkey)
  have hu1 : (updateFirst (userKeyP uid) (task_done_user_upd pid task.score
      (task_done_plan_upd now plan)) db.users).find? (userKeyP uid) =
      some (task_done_user_upd pid task.score (task_done_plan_upd now plan)
        user) := by
    rw [hupdU]
    refine find?_append_cons hfailU ?_
    have h4 := List.find?_some hu
    simpa [userKeyP, task_done_user_upd] using h4
  have heq2 := task_undo_eq dayOf (task_done dayOf uid pid tid now db).2
    uid pid tid {task with completed_at := some now}
    (task_done_plan_upd now plan)
    (task_done_user_upd pid task.score (task_done_plan_upd now plan) user)
    (by rw [hdb1t]; exact ht1) (by simp) (by rw [hdb1p]; exact hp1)
    (by rw [hdb1u]; exact hu1)
    (by simpa [task_done_user_upd] using hname)
  -- final lookups
  obtain ⟨U1b, U2b, hdecUb, hfailUb, hupdUb⟩ := find?_decomp
    (task_undo_user_upd pid
      ({task with completed_at := some now} : TaskRec).score) hu1
  obtain ⟨P1b, P2b, hdecPb, hfailPb, hupdPb⟩ := find?_decomp
    task_undo_plan_upd hp1
  have hfinalu : findUser? (task_undo dayOf uid pid tid
      (task_done dayOf uid pid tid now db).2).2 uid =
      some (task_undo_user_upd pid
        ({task with completed_at := some now} : TaskRec).score
        (task_done_user_upd pid task.score (task_done_plan_upd now plan)
          user)) := by
    show ((task_undo dayOf uid pid tid
      (task_done dayOf uid pid tid now db).2).2.users).find?
      (userKeyP uid) = _
    rw [heq2]
    show (updateFirst (userKeyP uid) _
      ((task_done dayOf uid pid tid now db).2.users)).find?
      (userKeyP uid) = _
    rw [hdb1u, hupdUb]
    refine find?_append_cons hfailUb ?_
    have h4 := List.find?_some hu
    simpa [userKeyP, task_undo_user_upd, task_done_user_upd] using h4
  have hfinalp : findPlan? (task_undo dayOf uid pid tid
      (task_done dayOf uid pid tid now db).2).2 uid pid =
      some (task_undo_plan_upd (task_done_plan_upd now plan)) := by
    show ((task_undo dayOf uid pid tid
      (task_done dayOf uid pid tid now db).2).2.plans).find?
      (planKeyP uid pid) = _
    rw [heq2]
    show (updateFirst (planKeyP uid pid) task_undo_plan_upd
      ((task_done dayOf uid pid tid now db).2.plans)).find?
      (planKeyP uid pid) = _
    rw [hdb1p, hupdPb]
    exact find?_append_cons hfailPb (by simpa [planKeyP, task_undo_plan_upd,
      task_done_plan_upd] using hpkey)
  refine ⟨?_, ?_, ?_⟩
  · rw [hfinalu]
    simp only [findUser?]
    rw [hu]
    simp [task_undo_user_upd, task_done_user_upd]
  · rw [hfinalp]
    simp only [findPlan?]
    rw [hp]
    simp only [Option.map_some', Option.some.injEq, task_undo_plan_upd,
      task_done_plan_upd]
    omega
  · rw [hfinalp]
    simp only [findPlan?]
    rw [hp]
    simp [task_undo_plan_upd, task_done_plan_upd, hplan_none]

/-- Witness for `complete_undo_roundtrip` on `sampleDB`, task 0. -/
theorem complete_undo_roundtrip_witness :
    (Consistent sampleDB ∧
     sampleDB.tasks.find? (fun t => taskKeyP "u1" 1 0 t && !t.deleted &&
       t.completed_at.isNone) = some (mkSampleTask 0 10 "2025-01-01") ∧
     sampleDB.plans.find? (planKeyP "u1" 1) = some
       { plan_id := 1, user_id := "u1", n_tasks := 3,
         n_tasks_done := 0, n_replans := 0, deleted := false,
         completed_at := none, next_task_id := 3,
         prompts := [some "goal"], responses := [some "resp"] } ∧
     sampleDB.users.find? (userKeyP "u1") = some
       { user_id := "u1", username := "alice", score := 0,
         n_tasks_done := 0, n_plans := 1, active_plans := [1] } ∧
     ("alice" : String) ≠ "") ∧
    (findUser? (task_undo sampleDayOf "u1" 1 0
        (task_done sampleDayOf "u1" 1 0 "T1" sampleDB).2).2 "u1").map
      (fun v => v.score) =
    (findUser? sampleDB "u1").map (fun v => v.score) :=
  ⟨⟨⟨by decide, by decide, by decide, by decide, by decide, by decide,
      by decide, by decide, by decide⟩, by decide, by decide, by decide,
      by decide⟩,
   (complete_undo_roundtrip sampleDayOf sampleDB
      ⟨by decide, by decide, by decide, by decide, by decide, by decide,
        by decide, by decide, by decide⟩
      "u1" 1 0 "T1" (mkSampleTask 0 10 "2025-01-01")
      { plan_id := 1, user_id := "u1", n_tasks := 3,
        n_tasks_done := 0, n_replans := 0, deleted := false,
        completed_at := none, next_task_id := 3,
        prompts := [some "goal"], responses := [some "resp"] }
      { user_id := "u1", username := "alice", score := 0,
        n_tasks_done := 0, n_plans := 1, active_plans := [1] }
      (by decide) (by decide) (by decide) (by decide)).1⟩

theorem counted_false_of_ne (w : String) (t : TaskRec)
    (h : t.user_id ≠ w) : counted w t = false := by
  simp [counted, h]

theorem scoreSum_updateFirst (w : String) (p : TaskRec → Bool)
    (f : TaskRec → TaskRec) (l : List TaskRec) (x : TaskRec)
    (hx : l.find? p = some x) :
    scoreSum w (updateFirst p f l) = scoreSum w l
      + ((if counted w (f x) then (f x).score else 0)
         - (if counted w x then x.score else 0)) := by
  obtain ⟨l1, l2, hdec, hfail, hupd⟩ := find?_decomp f hx
  rw [hupd, hdec, scoreSum_append, scoreSum_append, scoreSum_cons,
    scoreSum_cons]
  ring

/-- The common shape of a completion-engine mutation: one task rewritten in
place, one plan rewritten in place, the calling user's document rewritten
with a score delta matching the task's counted-score change.  Such a
mutation preserves `ScoreInv`. -/
theorem scoreInv_of_updates (db db' : DB) (h : ScoreInv db)
    (uid : String) (pid : Int) (task : TaskRec) (user : UserRec)
    (delta : Int) (tp : TaskRec → Bool) (tf : TaskRec → TaskRec)
    (uf : UserRec → UserRec) (pf : PlanRec → PlanRec)
    (ht : db.tasks.find? tp = some task)
    (hu : db.users.find? (userKeyP uid) = some user)
    (htasks : db'.tasks = updateFirst tp tf db.tasks)
    (hplans : db'.plans = updateFirst (planKeyP uid pid) pf db.plans)
    (husers : db'.users = updateFirst (userKeyP uid) uf db.users)
    (htf_keys : ∀ t, ((tf t).user_id, (tf t).plan_id) =
      (t.user_id, t.plan_id))
    (hpf_keys : ∀ p, ((pf p).user_id, (pf p).plan_id) =
      (p.user_id, p.plan_id))
    (huf_id : ∀ v, (uf v).user_id = v.user_id)
    (huf_score : (uf user).score = user.score + delta)
    (htask_uid : task.user_id = uid)
    (hdelta : (if counted uid (tf task) then (tf task).score else 0)
      - (if counted uid task then task.score else 0) = delta)
    (htf_uid : (tf task).user_id = task.user_id) :
    ScoreInv db' := by
  obtain ⟨hnodup, htp, htu, hscore⟩ := h
  have huser_uid : user.user_id = uid := by
    have := List.find?_some hu
    simpa [userKeyP] using this
  have htasks_map : db'.tasks.map
      (fun t : TaskRec => (t.user_id, t.plan_id)) =
      db.tasks.map (fun t : TaskRec => (t.user_id, t.plan_id)) := by
    rw [htasks]
    exact map_updateFirst _ _ _ (fun x => htf_keys x) _
  have htasks_umap : db'.tasks.map (fun t : TaskRec => t.user_id) =
      db.tasks.map (fun t : TaskRec => t.user_id) := by
    rw [htasks]
    refine map_updateFirst _ _ _ (fun x => ?_) _
    have := htf_keys x
    exact (Prod.mk.injEq _ _ _ _).mp this |>.1
  have hplans_map : db'.plans.map
      (fun p : PlanRec => (p.user_id, p.plan_id)) =
      db.plans.map (fun p : PlanRec => (p.user_id, p.plan_id)) := by
    rw [hplans]
    exact map_updateFirst _ _ _ (fun x => hpf_keys x) _
  have husers_map : db'.users.map (fun v : UserRec => v.user_id) =
      db.users.map (fun v : UserRec => v.user_id) := by
    rw [husers]
    exact map_updateFirst _ _ _ (fun x => huf_id x) _
  refine ⟨?_, ?_, ?_, ?_⟩
  · rw [husers_map]; exact hnodup
  · intro t htmem
    have h1 : (t.user_id, t.plan_id) ∈ db'.tasks.map
        (fun t : TaskRec => (t.user_id, t.plan_id)) :=
      List.mem_map_of_mem _ htmem
    rw [htasks_map] at h1
    obtain ⟨s, hsmem, hskey⟩ := List.mem_map.mp h1
    rw [hplans_map, ← hskey]
    exact htp s hsmem
  · intro t htmem
    have h1 : t.user_id ∈ db'.tasks.map (fun t : TaskRec => t.user_id) :=
      List.mem_map_of_mem _ htmem
    rw [htasks_umap] at h1
    obtain ⟨s, hsmem, hskey⟩ := List.mem_map.mp h1
    rw [husers_map, ← hskey]
    exact htu s hsmem
  · intro w hwmem
    obtain ⟨U1, U2, hdecU, hfailU, hupdU⟩ := find?_decomp uf hu
    rw [husers, hupdU] at hwmem
    have hsum : scoreSum uid db'.tasks = scoreSum uid db.tasks + delta := by
      rw [htasks, scoreSum_updateFirst uid tp tf db.tasks task ht, hdelta]
    rcases List.mem_append.mp hwmem with hw1 | hw2
    · have hwdb : w ∈ db.users := by
        rw [hdecU]; exact List.mem_append_left _ hw1
      have hwid : w.user_id ≠ uid := by
        intro hh
        exact ne_of_nodup_decomp (g := fun v : UserRec => v.user_id)
          (hdecU ▸ hnodup) w (Or.inl hw1) (by simpa [huser_uid] using hh)
      have hcf1 : counted w.user_id (tf task) = false := by
        apply counted_false_of_ne
        rw [htf_uid, htask_uid]
        exact fun hh => hwid hh.symm
      have hcf2 : counted w.user_id task = false := by
        apply counted_false_of_ne
        rw [htask_uid]
        exact fun hh => hwid hh.symm
      have hz : scoreSum w.user_id db'.tasks =
          scoreSum w.user_id db.tasks := by
        rw [htasks, scoreSum_updateFirst w.user_id tp tf db.tasks task ht,
          hcf1, hcf2]
        simp
      rw [hz]
      exact hscore w hwdb
    · rcases List.mem_cons.mp hw2 with rfl | hw3
      · have hu0 : user ∈ db.users := by
          rw [hdecU]
          exact List.mem_append_right _ (by simp)
        have hs0 := hscore user hu0
        rw [huf_id, huser_uid, hsum, huf_score]
        rw [huser_uid] at hs0
        rw [hs0]
      · have hwdb : w ∈ db.users := by
          rw [hdecU]
          exact List.mem_append_right _ (List.mem_cons_of_mem _ hw3)
        have hwid : w.user_id ≠ uid := by
          intro hh
          exact ne_of_nodup_decomp (g := fun v : UserRec => v.user_id)
            (hdecU ▸ hnodup) w (Or.inr hw3) (by simpa [huser_uid] using hh)
        have hcf1 : counted w.user_id (tf task) = false := by
          apply counted_false_of_ne
          rw [htf_uid, htask_uid]
          exact fun hh => hwid hh.symm
        have hcf2 : counted w.user_id task = false := by
          apply counted_false_of_ne
          rw [htask_uid]
          exact fun hh => hwid hh.symm
        have hz : scoreSum w.user_id db'.tasks =
            scoreSum w.user_id db.tasks := by
          rw [htasks, scoreSum_updateFirst w.user_id tp tf db.tasks task ht,
            hcf1, hcf2]
          simp
        rw [hz]
        exact hscore w hwdb

theorem scoreInv_task_done (dayOf : String → String) (uid : String)
    (pid tid : Int) (now : String) (db : DB) (h : ScoreInv db) :
    ScoreInv (task_done dayOf uid pid tid now db).2 := by
  cases hft : db.tasks.find? (fun t => taskKeyP uid pid tid t &&
      !t.deleted && t.completed_at.isNone) with
  | none =>
    have hres : (task_done dayOf uid pid tid now db).2 = db := by
      simp [task_done, findOneAndUpdateA, hft]
    rw [hres]; exact h
  | some task =>
    obtain ⟨hnodup, htp, htu, hscore⟩ := h
    have hpredt := List.find?_some hft
    simp only [Bool.and_eq_true] at hpredt
    have hparts : (task.task_id = tid ∧ task.user_id = uid) ∧
        task.plan_id = pid := by
      simpa [taskKeyP] using hpredt.1.1
    have hdel : task.deleted = false := by simpa using hpredt.1.2
    have hnone : task.completed_at = none :=
      Option.isNone_iff_eq_none.mp hpredt.2
    have hpair : (uid, pid) ∈ db.plans.map
        (fun p : PlanRec => (p.user_id, p.plan_id)) := by
      have h1 := htp task (List.mem_of_find?_eq_some hft)
      rwa [hparts.1.2, hparts.2] at h1
    obtain ⟨p0, hp0mem, hp0key⟩ := List.mem_map.mp hpair
    have hp0 : planKeyP uid pid p0 = true := by
      have h2 := (Prod.mk.injEq _ _ _ _).mp hp0key
      simp [planKeyP, h2.1, h2.2]
    have hpsome : (db.plans.find? (planKeyP uid pid)).isSome :=
      find?_isSome_of_mem hp0mem hp0
    obtain ⟨plan, hpfind⟩ := Option.isSome_iff_exists.mp hpsome
    have hupair : uid ∈ db.users.map (fun v : UserRec => v.user_id) := by
      have h1 := htu task (List.mem_of_find?_eq_some hft)
      rwa [hparts.1.2] at h1
    obtain ⟨u0, hu0mem, hu0key⟩ := List.mem_map.mp hupair
    have hu0 : userKeyP uid u0 = true := by simp [userKeyP, hu0key]
    have husome : (db.users.find? (userKeyP uid)).isSome :=
      find?_isSome_of_mem hu0mem hu0
    obtain ⟨user, hufind⟩ := Option.isSome_iff_exists.mp husome
    have happly : ∀ db2 : DB,
        db2.tasks = updateFirst (fun t => taskKeyP uid pid tid t &&
          !t.deleted && t.completed_at.isNone)
          (fun t => {t with completed_at := some now}) db.tasks →
        db2.plans = updateFirst (planKeyP uid pid) (task_done_plan_upd now)
          db.plans →
        db2.users = updateFirst (userKeyP uid)
          (task_done_user_upd pid task.score (task_done_plan_upd now plan))
          db.users → ScoreInv db2 := by
      intro db2 h1 h2 h3
      refine scoreInv_of_updates db db2 ⟨hnodup, htp, htu, hscore⟩ uid pid
        task user task.score _ _ _ _ hft hufind h1 h2 h3 ?_ ?_ ?_ ?_ ?_ ?_ ?_
      · intro t; rfl
      · intro p; rfl
      · intro v; rfl
      · rfl
      · exact hparts.1.2
      · have hc1 : counted uid
            ({task with completed_at := some now} : TaskRec) = true := by
          simp [counted, hparts.1.2, hdel]
        have hc2 : counted uid task = false := by
          simp [counted, hnone]
        rw [hc1, hc2]
        simp
      · rfl
    by_cases hname : user.username = ""
    · have hres : (task_done dayOf uid pid tid now db).2 =
          { tasks := updateFirst (fun t => taskKeyP uid pid tid t &&
              !t.deleted && t.completed_at.isNone)
              (fun t => {t with completed_at := some now}) db.tasks,
            plans := updateFirst (planKeyP uid pid)
              (task_done_plan_upd now) db.plans,
            users := updateFirst (userKeyP uid)
              (task_done_user_upd pid task.score
                (task_done_plan_upd now plan)) db.users,
            medals := db.medals, lb := db.lb } := by
        simp only [task_done, task_done_plan, task_done_user,
          findOneAndUpdateA, hft, hpfind, hufind]
        rw [if_pos (by simpa [task_done_user_upd] using hname)]
      rw [hres]
      exact happly _ rfl rfl rfl
    · have heq := task_done_eq dayOf db uid pid tid now task plan user hft
        hpfind hufind hname
      rw [heq]
      exact happly _ rfl rfl rfl

theorem scoreInv_task_undo (dayOf : String → String) (uid : String)
    (pid tid : Int) (db : DB) (h : ScoreInv db) :
    ScoreInv (task_undo dayOf uid pid tid db).2 := by
  cases hft1 : db.tasks.find? (fun t => taskKeyP uid pid tid t &&
      !t.deleted) with
  | none =>
    have hres : (task_undo dayOf uid pid tid db).2 = db := by
      simp [task_undo, hft1]
    rw [hres]; exact h
  | some task_doc =>
    cases hcc : task_doc.completed_at with
    | none =>
      have hres : (task_undo dayOf uid pid tid db).2 = db := by
        simp [task_undo, hft1, hcc]
      rw [hres]; exact h
    | some ts0 =>
      obtain ⟨hnodup, htp, htu, hscore⟩ := h
      have hsome : task_doc.completed_at.isSome = true := by
        rw [hcc]; rfl
      have hnotnone : task_doc.completed_at.isNone = false := by
        rw [hcc]; rfl
      have ht2 : db.tasks.find? (fun t => taskKeyP uid pid tid t &&
          !t.deleted && t.completed_at.isSome) = some task_doc :=
        find?_conj_of_find?_some hft1 hsome
      have hpredt := List.find?_some hft1
      simp only [Bool.and_eq_true] at hpredt
      have hparts : (task_doc.task_id = tid ∧ task_doc.user_id = uid) ∧
          task_doc.plan_id = pid := by
        simpa [taskKeyP] using hpredt.1
      have hdel : task_doc.deleted = false := by simpa using hpredt.2
      have hpair : (uid, pid) ∈ db.plans.map
          (fun p : PlanRec => (p.user_id, p.plan_id)) := by
        have h1 := htp task_doc (List.mem_of_find?_eq_some hft1)
        rwa [hparts.1.2, hparts.2] at h1
      obtain ⟨p0, hp0mem, hp0key⟩ := List.mem_map.mp hpair
      have hp0 : planKeyP uid pid p0 = true := by
        have h2 := (Prod.mk.injEq _ _ _ _).mp hp0key
        simp [planKeyP, h2.1, h2.2]
      have hpsome : (db.plans.find? (planKeyP uid pid)).isSome :=
        find?_isSome_of_mem hp0mem hp0
      obtain ⟨plan, hpfind⟩ := Option.isSome_iff_exists.mp hpsome
      have hupair : uid ∈ db.users.map (fun v : UserRec => v.user_id) := by
        have h1 := htu task_doc (List.mem_of_find?_eq_some hft1)
        rwa [hparts.1.2] at h1
      obtain ⟨u0, hu0mem, hu0key⟩ := List.mem_map.mp hupair
      have hu0 : userKeyP uid u0 = true := by simp [userKeyP, hu0key]
      have husome : (db.users.find? (userKeyP uid)).isSome :=
        find?_isSome_of_mem hu0mem hu0
      obtain ⟨user, hufind⟩ := Option.isSome_iff_exists.mp husome
      have happly : ∀ db2 : DB,
          db2.tasks = updateFirst (fun t => taskKeyP uid pid tid t &&
            !t.deleted && t.completed_at.isSome)
            (fun t => {t with completed_at := none}) db.tasks →
          db2.plans = updateFirst (planKeyP uid pid) task_undo_plan_upd
            db.plans →
          db2.users = updateFirst (userKeyP uid)
            (task_undo_user_upd pid task_doc.score) db.users →
          ScoreInv db2 := by
        intro db2 h1 h2 h3
        refine scoreInv_of_updates db db2 ⟨hnodup, htp, htu, hscore⟩ uid pid
          task_doc user (-task_doc.score) _ _ _ _ ht2 hufind h1 h2 h3
          ?_ ?_ ?_ ?_ ?_ ?_ ?_
        · intro t; rfl
        · intro p; rfl
        · intro v; rfl
        · show user.score - task_doc.score = user.score + -task_doc.score
          ring
        · exact hparts.1.2
        · have hc1 : counted uid
              ({task_doc with completed_at := none} : TaskRec) = false := by
            simp [counted]
          have hc2 : counted uid task_doc = true := by
            simp [counted, hparts.1.2, hdel, hcc]
          rw [hc1, hc2]
          simp
        · rfl
      by_cases hname : user.username = ""
      · have hres : (task_undo dayOf uid pid tid db).2 =
            { tasks := updateFirst (fun t => taskKeyP uid pid tid t &&
                !t.deleted && t.completed_at.isSome)
                (fun t => {t with completed_at := none}) db.tasks,
              plans := updateFirst (planKeyP uid pid) task_undo_plan_upd
                db.plans,
              users := updateFirst (userKeyP uid)
                (task_undo_user_upd pid task_doc.score) db.users,
              medals := db.medals, lb := db.lb } := by
          simp only [task_undo, task_undo_plan, task_undo_user,
            findOneAndUpdateA, hft1, ht2, hpfind, hufind, hnotnone]
          rw [if_neg (by simp)]
          rw [if_pos (by simpa [task_undo_user_upd] using hname)]
        rw [hres]
        exact happly _ rfl rfl rfl
      · have heq := task_undo_eq dayOf db uid pid tid task_doc plan user
          hft1 hsome hpfind hufind hname
        rw [heq]
        exact happly _ rfl rfl rfl

theorem scoreInv_runCalls (dayOf : String → String) :
    ∀ (calls : List Call) (db : DB), ScoreInv db →
      ScoreInv (runCalls dayOf calls db) := by
  intro calls
  induction calls with
  | nil => intro db h; exact h
  | cons c cs ih =>
    intro db h
    apply ih
    cases c with
    | done uid pid tid now =>
      exact scoreInv_task_done dayOf uid pid tid now db h
    | undo uid pid tid =>
      exact scoreInv_task_undo dayOf uid pid tid db h

/-- C1: starting from a consistent state, after any sequence of
`CompleteTask` / `UndoTask` calls every user's `score` field equals the sum
of the `score` fields of that user's tasks that have `completed_at` set and
`deleted = false`. -/
theorem score_accounting_invariant (dayOf : String → String) (db : DB)
    (hC : Consistent db) (calls : List Call) :
    ∀ u ∈ (runCalls dayOf calls db).users,
      u.score = scoreSum u.user_id (runCalls dayOf calls db).tasks := by
  have h0 : ScoreInv db :=
    ⟨hC.users_nodup, hC.task_plan, hC.task_user, hC.score_inv⟩
  exact (scoreInv_runCalls dayOf calls db h0).2.2.2

/-- Witness for `score_accounting_invariant`: two completions and one undo
on the sample database. -/
theorem score_accounting_invariant_witness :
    Consistent sampleDB ∧
    (∀ u ∈ (runCalls sampleDayOf
        [.done "u1" 1 0 "T1", .done "u1" 1 1 "T2", .undo "u1" 1 0]
        sampleDB).users,
      u.score = scoreSum u.user_id (runCalls sampleDayOf
        [.done "u1" 1 0 "T1", .done "u1" 1 1 "T2", .undo "u1" 1 0]
        sampleDB).tasks) :=
  ⟨⟨by decide, by decide, by decide, by decide, by decide, by decide,
      by decide, by decide, by decide⟩,
   score_accounting_invariant sampleDayOf sampleDB
     ⟨by decide, by decide, by decide, by decide, by decide, by decide,
       by decide, by decide, by decide⟩
     [.done "u1" 1 0 "T1", .done "u1" 1 1 "T2", .undo "u1" 1 0]⟩

unseal Substring.takeWhileAux Substring.takeRightWhileAux in
/-- C5 (code bug): no Replan ever allocates task ids, because the code
crashes before its writes.  `replan` leaves the database unchanged on every
path — its step 4 calls `db.update_many_filtered`, which
`backend/db/database.py` does not define (`AttributeError`, HTTP 500) — and
so does any sequence of Replan calls; concretely, on `sampleDB` a valid
replan request errors with 500 and the plan's task-id history is untouched.
Plans cannot even be created: on the success path of
`_insert_plan_for_user`, `db.insert("plans", …)` raises `KeyError('plans')`
in `check_primary_keys` right after the user update, so creation 500s with
no plan and no task documents — no ids ever exist to be reused. -/
theorem replan_never_allocates :
    (∀ (validDate : String → Bool) (uid : String) (pid : Int) llm (db : DB),
      (replan validDate uid pid llm db).2 = db) ∧
    (∀ (validDate : String → Bool) (uid : String) (pid : Int) xs (db : DB),
      runReplans validDate uid pid xs db = db) ∧
    ((replan allDatesValid "u1" 1
        (some ([("2025-01-02", sampleDraftC)], some "p2", some "r2"))
        sampleDB).1 = .error 500 ∧
     planTaskIds "u1" 1
        (replan allDatesValid "u1" 1
          (some ([("2025-01-02", sampleDraftC)], some "p2", some "r2"))
          sampleDB).2.tasks = [0, 1, 2]) ∧
    ((_insert_plan_for_user allDatesValid "u1" [("2025-01-01", sampleDraftA)]
        (some "goal") (some "resp") sampleDB0).1 = .error 500 ∧
     (_insert_plan_for_user allDatesValid "u1" [("2025-01-01", sampleDraftA)]
        (some "goal") (some "resp") sampleDB0).2.plans = [] ∧
     (_insert_plan_for_user allDatesValid "u1" [("2025-01-01", sampleDraftA)]
        (some "goal") (some "resp") sampleDB0).2.tasks = []) := by
  have hrep : ∀ (validDate : String → Bool) (uid : String) (pid : Int) llm
      (db : DB), (replan validDate uid pid llm db).2 = db := by
    intro validDate uid pid llm db
    rfl
  refine ⟨hrep, ?_, ⟨rfl, by decide⟩, rfl, by decide, by decide⟩
  intro validDate uid pid xs
  induction xs with
  | nil => intro db; rfl
  | cons x xs ih =>
    intro db
    rw [runReplans, hrep]
    exact ih db

/-- The medals collection after one `CompleteTask`: unchanged on every
branch — the two medal writes raise `KeyError('medals')` and are
swallowed. -/
theorem task_done_medals (dayOf : String → String) (uid : String)
    (pid tid : Int) (now : String) (db : DB) :
    ((task_done dayOf uid pid tid now db).2).medals = db.medals := by
  unfold task_done
  split
  · rfl
  · unfold task_done_plan
    split
    · rfl
    · unfold task_done_user
      split
      · rfl
      · split
        · rfl
        · unfold task_done_finish
          split
          · rfl
          · rfl

/-- The medals collection after one `UndoTask`: unchanged on every branch —
the medal removal raises `KeyError('medals')` and is swallowed. -/
theorem task_undo_medals (dayOf : String → String) (uid : String)
    (pid tid : Int) (db : DB) :
    ((task_undo dayOf uid pid tid db).2).medals = db.medals := by
  unfold task_undo
  split
  · rfl
  · split
    · rfl
    · split
      · rfl
      · unfold task_undo_plan
        split
        · rfl
        · unfold task_undo_user
          split
          · rfl
          · split
            · rfl
            · rfl

/-- C6 (code bug): the completion engine never writes the `medals`
collection.  Every medal update of `task_done` and `task_undo` goes through
`db.update_one("medals", …)`, which raises `KeyError('medals')` inside
`check_primary_keys` (`medals` has no entry in `table_primary_keys_dict`);
the surrounding `try/except` swallows the error and the request proceeds.
So across any sequence of `CompleteTask` / `UndoTask` calls the stored
medal state is bit-for-bit unchanged — nothing is ever recomputed, fully or
incrementally. -/
theorem medals_never_written (dayOf : String → String) :
    ∀ (calls : List Call) (db : DB),
      (runCalls dayOf calls db).medals = db.medals := by
  intro calls
  induction calls with
  | nil => intro db; rfl
  | cons c cs ih =>
    intro db
    rw [runCalls, ih]
    cases c with
    | done uid pid tid now => exact task_done_medals dayOf uid pid tid now db
    | undo uid pid tid => exact task_undo_medals dayOf uid pid tid db

unseal Rat.mul Rat.inv Nat.gcd String.substrEq.loop in
/-- C6 counterexample: completing task 0 of the three same-day tasks of
`sampleDB` gives the current same-day set a completed/total ratio of 1/3,
whose grade under the spec's recomputation is `"B"` — yet the resulting
state stores no medal record for `("u1", "2025-01-01")` at all (the medals
collection stays empty).  The stored medal record is therefore not the full
recomputation from the current same-day task set that the claim asserts. -/
theorem medal_not_fully_recomputed :
    (runCalls sampleDayOf [.done "u1" 1 0 "T1"] sampleDB).medals = [] ∧
    _medal_grade
      (((sameDayTasks "u1" "2025-01-01"
          (runCalls sampleDayOf [.done "u1" 1 0 "T1"] sampleDB).tasks).filter
        (fun t => t.completed_at.isSome)).length : Int)
      ((sameDayTasks "u1" "2025-01-01"
          (runCalls sampleDayOf [.done "u1" 1 0 "T1"] sampleDB).tasks).length :
        Int) = "B" ∧
    ¬ ∃ m ∈ (runCalls sampleDayOf [.done "u1" 1 0 "T1"] sampleDB).medals,
        m.user_id = "u1" ∧ m.timestamp = "2025-01-01" := by
  refine ⟨by decide, by decide, ?_⟩
  intro h
  obtain ⟨m, hm, _⟩ := h
  have hempty :
      (runCalls sampleDayOf [.done "u1" 1 0 "T1"] sampleDB).medals = [] := by
    decide
  rw [hempty] at hm
  cases hm

end SkillUp
